import Mathlib

/-!
# Fixed-point money library: a shallow embedding

The Go package `money` stores an amount as a signed 64-bit integer in the
currency's smallest unit.  Amounts are modelled as `Int`; every machine
operation that could leave the 64-bit range is passed through `wrap64`
(two's complement wrap-around), and the Go operators `/` and `%` are the
truncating `Int.tdiv` and `Int.tmod`.  Functions returning `(*Money, error)`
are modelled with `Except`, functions returning `(bool, error)` with a pair of
the boolean and an optional error.
-/

namespace money

/-! ## Machine integers -/

/-- The constant `math.MaxInt64`. -/
def MaxInt64 : Int := 9223372036854775807

/-- The constant `math.MinInt64`. -/
def MinInt64 : Int := -9223372036854775808

/-- The value lies in the range of the Go type `int64`. -/
def inInt64 (v : Int) : Prop := MinInt64 ≤ v ∧ v ≤ MaxInt64

instance (v : Int) : Decidable (inInt64 v) := by
  unfold inInt64; exact inferInstance

/-- Two's complement wrap-around of a mathematical integer into `int64`. -/
def wrap64 (x : Int) : Int :=
  (x + 9223372036854775808) % 18446744073709551616 - 9223372036854775808

/-! ## types.go -/

/-- The Go type `RoundingMethod` is an `int`; the named methods are `iota` constants. -/
abbrev RoundingMethod := Int

def RoundHalfUp : RoundingMethod := 0
def RoundHalfDown : RoundingMethod := 1
def RoundHalfEven : RoundingMethod := 2
def RoundUp : RoundingMethod := 3
def RoundDown : RoundingMethod := 4
def BrazilianRounding : RoundingMethod := 5

/-- Currency holds details about each currency. -/
structure Currency where
  Code : String
  Symbol : String
  Precision : Int
  SingularName : String
  PluralName : String
  GroupSeparator : String
  DecimalSeparator : String
  SymbolPosition : String
  deriving DecidableEq, Repr

/-- The static registry `CurrencyMap`, as an association list in source order
(the keys of a Go map literal are pairwise distinct). The group separator of
CHF is the one-character string holding an apostrophe, written `\x27`. -/
def CurrencyMap : List (String × Currency) :=
  [ ("USD", ⟨"USD", "$", 2, "Dollar", "Dollars", ",", ".", "before"⟩),
    ("EUR", ⟨"EUR", "€", 2, "Euro", "Euros", ".", ",", "before"⟩),
    ("JPY", ⟨"JPY", "¥", 0, "Yen", "Yen", ",", "", "before"⟩),
    ("GBP", ⟨"GBP", "£", 2, "Pound", "Pounds", ",", ".", "before"⟩),
    ("CHF", ⟨"CHF", "Fr.", 2, "Franc", "Francs", "\x27", ".", "before"⟩),
    ("BRL", ⟨"BRL", "R$", 2, "Real", "Reais", ".", ",", "before"⟩),
    ("ARS", ⟨"ARS", "$", 0, "Peso", "Pesos", ".", ",", "before"⟩),
    ("UYU", ⟨"UYU", "$U", 2, "Peso", "Pesos", ".", ",", "before"⟩),
    ("CLP", ⟨"CLP", "$", 0, "Peso", "Pesos", ".", "", "before"⟩),
    ("CAD", ⟨"CAD", "$", 2, "Dollar", "Dollars", ",", ".", "before"⟩),
    ("MXN", ⟨"MXN", "$", 2, "Peso", "Pesos", ",", ".", "before"⟩),
    ("CNY", ⟨"CNY", "¥", 2, "Yuan", "Yuan", ",", ".", "before"⟩),
    ("HKD", ⟨"HKD", "HK$", 2, "Dollar", "Dollars", ",", ".", "before"⟩),
    ("SGD", ⟨"SGD", "$", 2, "Dollar", "Dollars", ",", ".", "before"⟩),
    ("INR", ⟨"INR", "₹", 2, "Rupee", "Rupees", ",", ".", "before"⟩),
    ("KRW", ⟨"KRW", "₩", 0, "Won", "Won", ",", "", "before"⟩),
    ("TWD", ⟨"TWD", "NT$", 2, "Dollar", "Dollars", ",", ".", "before"⟩),
    ("AUD", ⟨"AUD", "$", 2, "Dollar", "Dollars", ",", ".", "before"⟩),
    ("NZD", ⟨"NZD", "$", 2, "Dollar", "Dollars", ",", ".", "before"⟩),
    ("SEK", ⟨"SEK", "kr", 2, "Krona", "Kronor", " ", ",", "after"⟩),
    ("NOK", ⟨"NOK", "kr", 2, "Krone", "Kroner", " ", ",", "after"⟩),
    ("DKK", ⟨"DKK", "kr", 2, "Krone", "Kroner", ".", ",", "after"⟩) ]

/-- Money represents a monetary value in the smallest unit (e.g., cents). -/
structure Money where
  amount : Int
  currency : Currency
  deriving DecidableEq, Repr

/-- MoneyFormatOptions defines how a Money instance is formatted. -/
structure MoneyFormatOptions where
  UseSymbol : Bool
  ShowCents : Bool
  SymbolPosition : String
  GroupSeparator : String
  DecimalSeparator : String
  deriving DecidableEq, Repr

/-! ## errors.go -/

/-- The four error types of the package, one constructor per Go struct, and
`Errorf format err` for the error built by `fmt.Errorf(format, err)` with a
`%w` verb, which wraps `err`. -/
inductive MoneyError where
  | CurrencyMismatchError (Currency1 Currency2 : String)
  | OverflowError (Operation : String) (Amount1 Amount2 : Int)
  | ValidationError (Field Message : String)
  | GetCurrencyError (Code : String)
  | Errorf (format : String) (err : MoneyError)
  deriving DecidableEq, Repr

/-! ## currency.go -/

/-- GetCurrency retrieves the Currency struct from CurrencyMap. -/
def GetCurrency (code : String) : Except MoneyError Currency :=
  if code = "" then
    .error (.ValidationError "currency code" "currency code cannot be empty")
  else
    match CurrencyMap.lookup code with
    | none => .error (.GetCurrencyError code)
    | some currency => .ok currency

/-! ## operations.go -/

/-- New creates a Money instance from an integer amount. -/
def New (amount : Int) (currencyCode : String) : Except MoneyError Money :=
  match GetCurrency currencyCode with
  | .error err => .error err
  | .ok currency => .ok ⟨amount, currency⟩

/-- Add adds two Money instances. -/
def Money.Add (m other : Money) : Except MoneyError Money :=
  if m.currency ≠ other.currency then
    .error (.CurrencyMismatchError m.currency.Code other.currency.Code)
  else if (decide (other.amount > 0) && decide (m.amount > wrap64 (MaxInt64 - other.amount))) ||
      (decide (other.amount < 0) && decide (m.amount < wrap64 (MinInt64 - other.amount))) then
    .error (.OverflowError "addition" m.amount other.amount)
  else
    .ok ⟨wrap64 (m.amount + other.amount), m.currency⟩

/-- Subtract subtracts another Money from the current Money. -/
def Money.Subtract (m other : Money) : Except MoneyError Money :=
  if m.currency ≠ other.currency then
    .error (.CurrencyMismatchError m.currency.Code other.currency.Code)
  else if (decide (other.amount < 0) && decide (m.amount > wrap64 (MaxInt64 + other.amount))) ||
      (decide (other.amount > 0) && decide (m.amount < wrap64 (MinInt64 + other.amount))) then
    .error (.OverflowError "subtraction" m.amount other.amount)
  else
    .ok ⟨wrap64 (m.amount - other.amount), m.currency⟩

/-- Equals checks if two Money instances are equal. -/
def Money.Equals (m other : Money) : Bool × Option MoneyError :=
  if m.currency ≠ other.currency then
    (false, some (.CurrencyMismatchError m.currency.Code other.currency.Code))
  else
    (decide (m.amount = other.amount), none)

/-- GreaterThan checks if this Money is greater than another. -/
def Money.GreaterThan (m other : Money) : Bool × Option MoneyError :=
  if m.currency ≠ other.currency then
    (false, some (.CurrencyMismatchError m.currency.Code other.currency.Code))
  else
    (decide (m.amount > other.amount), none)

/-- LessThan checks if this Money is less than another. -/
def Money.LessThan (m other : Money) : Bool × Option MoneyError :=
  if m.currency ≠ other.currency then
    (false, some (.CurrencyMismatchError m.currency.Code other.currency.Code))
  else
    (decide (m.amount < other.amount), none)

/-! ## helpers.go -/

/-- Helper function for rounding monetary values; `value` carries one extra
decimal digit.  The `switch` on the method becomes a chain of tests, the last
branch being the `default:` case. -/
def round (value : Int) (method : RoundingMethod) : Int :=
  if method = RoundHalfUp then
    if Int.tmod value 10 ≥ 5 then wrap64 (Int.tdiv value 10 + 1) else Int.tdiv value 10
  else if method = RoundHalfDown then
    if Int.tmod value 10 > 5 then wrap64 (Int.tdiv value 10 + 1) else Int.tdiv value 10
  else if method = RoundHalfEven then
    let mod := Int.tmod value 10
    let quotient := Int.tdiv value 10
    if mod > 5 ∨ (mod = 5 ∧ Int.tmod quotient 2 ≠ 0) then wrap64 (quotient + 1) else quotient
  else if method = RoundUp then
    if Int.tmod value 10 ≠ 0 then wrap64 (Int.tdiv value 10 + 1) else Int.tdiv value 10
  else if method = RoundDown then
    Int.tdiv value 10
  else if method = BrazilianRounding then
    let lastDigit := Int.tmod value 10
    let secondLastDigit := Int.tmod (Int.tdiv value 10) 10
    let lastTwoDigits := wrap64 (wrap64 (secondLastDigit * 10) + lastDigit)
    if lastTwoDigits < 25 then
      wrap64 (wrap64 (Int.tdiv value 100 * 100) + Int.tdiv 20 10)
    else if lastTwoDigits < 75 then
      wrap64 (wrap64 (Int.tdiv value 100 * 100) + Int.tdiv 50 10)
    else
      wrap64 (wrap64 (Int.tdiv (wrap64 (value + 100)) 100 * 100) + Int.tdiv 0 10)
  else
    Int.tdiv value 10

/-- Additional helper function to support Brazilian rounding edge cases.
The Go function calls itself on the negated amount when the amount is
negative; the first argument bounds the depth of nested calls, and `none`
means that the bound was reached before a value was returned. -/
def formatBrazilianAmount : Nat → Int → Option Int
  | 0, _ => none
  | fuel + 1, amount =>
    if amount < 0 then
      (formatBrazilianAmount fuel (wrap64 (-amount))).map (fun r => wrap64 (-r))
    else
      let cents := Int.tmod amount 100
      let wholePart := wrap64 (amount - cents)
      if cents < 3 then some (wrap64 (wholePart + 0))
      else if cents < 8 then some (wrap64 (wholePart + 5))
      else if cents < 13 then some (wrap64 (wholePart + 10))
      else if cents < 18 then some (wrap64 (wholePart + 15))
      else if cents < 23 then some (wrap64 (wholePart + 20))
      else if cents < 28 then some (wrap64 (wholePart + 25))
      else if cents < 33 then some (wrap64 (wholePart + 30))
      else if cents < 38 then some (wrap64 (wholePart + 35))
      else if cents < 43 then some (wrap64 (wholePart + 40))
      else if cents < 48 then some (wrap64 (wholePart + 45))
      else if cents < 53 then some (wrap64 (wholePart + 50))
      else if cents < 58 then some (wrap64 (wholePart + 55))
      else if cents < 63 then some (wrap64 (wholePart + 60))
      else if cents < 68 then some (wrap64 (wholePart + 65))
      else if cents < 73 then some (wrap64 (wholePart + 70))
      else if cents < 78 then some (wrap64 (wholePart + 75))
      else if cents < 83 then some (wrap64 (wholePart + 80))
      else if cents < 88 then some (wrap64 (wholePart + 85))
      else if cents < 93 then some (wrap64 (wholePart + 90))
      else if cents < 98 then some (wrap64 (wholePart + 95))
      else some (wrap64 (wholePart + 100))

/-! ## Operations that go through `float64`

Floating point is not part of the model.  Every use of a `float64` in the
package has the shape `int64(x*f*10)`: a product with the extra factor 10,
converted to `int64` and handed to `round`.  A `float64` operand is therefore
represented by the `int64` values this expression takes: a factor by the
function from the amount to `int64(float64(amount)*factor*10)`, an amount by
the function from the precision to `int64(amount*math.Pow(10, precision)*10)`.
The process-wide variable `DefaultRoundingMethod` is an explicit argument. -/

/-- A `float64` factor or rate, given by `int64(float64(amount)*factor*10)`
as a function of the `int64` amount. -/
abbrev FloatFactor := Int → Int

/-- A `float64` amount, given by `int64(amount*math.Pow(10, precision)*10)` as
a function of the precision. -/
abbrev FloatAmount := Int → Int

/-- The factor `num/den` on the amounts where `float64` arithmetic is exact:
when `num/den`, the amount and the two products are `float64` values and the
last product is a whole number, IEEE 754 multiplication returns the products
themselves and the conversion to `int64` returns the whole number. -/
def exactFactor (num den : Int) : FloatFactor :=
  fun amount => Int.tdiv (amount * num * 10) den

/-- The amount `num/den` on the precisions where `float64` arithmetic is
exact, in the same sense as `exactFactor`. -/
def exactAmount (num den : Int) : FloatAmount :=
  fun precision => Int.tdiv (num * 10 ^ precision.toNat * 10) den

/-- NewFromFloat creates a Money instance from a float64, applying
DefaultRoundingMethod.  The warning written to the standard error stream is
not modelled. -/
def NewFromFloat (amount : FloatAmount) (currencyCode : String)
    (DefaultRoundingMethod : RoundingMethod) : Except MoneyError Money :=
  match GetCurrency currencyCode with
  | .error err => .error err
  | .ok currency =>
    .ok ⟨Int.tdiv (round (amount currency.Precision) DefaultRoundingMethod) 10, currency⟩

/-- Multiply multiplies Money by a factor and rounds the result. -/
def Money.Multiply (m : Money) (factor : FloatFactor)
    (DefaultRoundingMethod : RoundingMethod) : Money :=
  ⟨Int.tdiv (round (factor m.amount) DefaultRoundingMethod) 10, m.currency⟩

/-- ConvertTo converts Money to another currency given an exchange rate.  The
first argument bounds the depth of the calls of formatBrazilianAmount; `none`
means that no value was returned within the bound. -/
def Money.ConvertTo (fuel : Nat) (m : Money) (targetCurrency : String) (rate : FloatFactor)
    (DefaultRoundingMethod : RoundingMethod) : Option (Except MoneyError Money) :=
  match GetCurrency targetCurrency with
  | .error err => some (.error err)
  | .ok targetCurrencyObj =>
    if targetCurrencyObj.Code = "BRL" then
      let targetAmount := Int.tdiv (round (rate m.amount) DefaultRoundingMethod) 10
      match formatBrazilianAmount fuel targetAmount with
      | none => none
      | some amount => some (.ok ⟨amount, targetCurrencyObj⟩)
    else
      some (.ok ⟨Int.tdiv (round (rate m.amount) DefaultRoundingMethod) 10, targetCurrencyObj⟩)

/-! ## currency.go: formatting

Go strings are byte sequences; the strings cut by index here are the decimal
digits printed by `%d`, one byte per character. -/

/-- The text of `fmt.Sprintf("%d", n)`. -/
def sprintfD (n : Int) : String :=
  if n < 0 then "-" ++ Nat.repr n.natAbs else Nat.repr n.natAbs

/-- The text of `fmt.Sprintf("%0*d", width, n)` for a positive width, the
only case in which the package prints with it: the digits are padded with
zeros on the left, after the sign, up to the width. -/
def sprintfZeroPadD (width : Int) (n : Int) : String :=
  let digits := Nat.repr n.natAbs
  if n < 0 then
    "-" ++ String.mk (List.replicate (width.toNat - 1 - digits.length) '0') ++ digits
  else
    String.mk (List.replicate (width.toNat - digits.length) '0') ++ digits

/-- The value of `int64(math.Pow10(n))` for 0 ≤ n ≤ 18, where the power is a
whole number in the `int64` range.  For other n the conversion gives zero (and
the division by it stops the program) or is left open by the language; no
value is modelled there. -/
def pow10Int64 (n : Int) : Option Int :=
  if 0 ≤ n ∧ n ≤ 18 then some (10 ^ n.toNat) else none

/-- The `for` loop of addThousandsSeparator, from index `i`; the first
argument bounds the number of rounds (one round per group of three). -/
def addThousandsSeparator.loop (s : List Char) (sep : String) : Nat → Nat → String → String
  | 0, _, result => result
  | fuel + 1, i, result =>
    if i < s.length then
      let result1 := result ++ String.mk ((s.drop i).take 3)
      let result2 := if i + 3 < s.length then result1 ++ sep else result1
      addThousandsSeparator.loop s sep fuel (i + 3) result2
    else result

/-- Helper for thousands separator. -/
def addThousandsSeparator (s sep : String) : String :=
  let n := s.length % 3
  let result :=
    if n > 0 then
      if s.length > n then String.mk (s.data.take n) ++ sep else String.mk (s.data.take n)
    else ""
  addThousandsSeparator.loop s.data sep s.length n result

/-- FormatWithOptions formats Money with custom options.  The first argument
bounds the depth of the calls of formatBrazilianAmount; `none` means that no
string was returned. -/
def Money.FormatWithOptions (fuel : Nat) (m : Money) (opts : MoneyFormatOptions) :
    Option String :=
  match (if m.currency.Code = "BRL" then formatBrazilianAmount fuel m.amount
    else some m.amount) with
  | none => none
  | some amount =>
    match pow10Int64 m.currency.Precision with
    | none => none
    | some pow =>
      let units0 := Int.tdiv amount pow
      let decimals0 := Int.tmod amount pow
      let decimals := if decimals0 < 0 then wrap64 (-decimals0) else decimals0
      let negative := decide (amount < 0)
      let units := if negative then wrap64 (-units0) else units0
      let result0 := if negative then "-" else ""
      let result1 :=
        if opts.UseSymbol then
          if opts.SymbolPosition = "before" then result0 ++ (m.currency.Symbol ++ " ")
          else result0
        else result0
      let amountStr :=
        if opts.GroupSeparator ≠ "" then
          addThousandsSeparator (sprintfD units) opts.GroupSeparator
        else sprintfD units
      let result2 := result1 ++ amountStr
      let result3 :=
        if opts.ShowCents ∧ m.currency.Precision > 0 then
          result2 ++ (opts.DecimalSeparator ++
            sprintfZeroPadD m.currency.Precision decimals)
        else result2
      let result4 :=
        if opts.UseSymbol ∧ opts.SymbolPosition = "after" then
          result3 ++ (" " ++ m.currency.Symbol)
        else result3
      some result4

/-- Format returns a string representation using default formatting options
for the currency. -/
def Money.Format (fuel : Nat) (m : Money) : Option String :=
  m.FormatWithOptions fuel
    ⟨true, true, m.currency.SymbolPosition, m.currency.GroupSeparator,
      m.currency.DecimalSeparator⟩

/-! ## collections.go -/

/-- MoneySlice represents a slice of Money pointers that can be sorted. -/
abbrev MoneySlice := List Money

/-- The loop of ValidateMoneySlice over `slice[1:]`. -/
def ValidateMoneySlice.loop (currency : Currency) : List Money → Option MoneyError
  | [] => none
  | money :: rest =>
    if money.currency ≠ currency then
      some (.CurrencyMismatchError currency.Code money.currency.Code)
    else
      ValidateMoneySlice.loop currency rest

/-- ValidateMoneySlice checks if all Money values in a slice have the same
currency; `none` is the Go result `nil`. -/
def ValidateMoneySlice (slice : MoneySlice) : Option MoneyError :=
  if slice.length ≤ 1 then none
  else
    match slice with
    | [] => none
    | first :: rest => ValidateMoneySlice.loop first.currency rest

/-- The loop of Sum: the running result is added to each element in turn. -/
def Sum.loop (result : Money) : List Money → Except MoneyError Money
  | [] => .ok result
  | money :: rest =>
    match result.Add money with
    | .error err => .error (.Errorf "sum operation failed: %w" err)
    | .ok r => Sum.loop r rest

/-- Sum returns the sum of a slice of Money values. -/
def Sum (slice : MoneySlice) : Except MoneyError Money :=
  match slice with
  | [] => .error (.ValidationError "slice" "empty slice provided")
  | first :: _ =>
    match ValidateMoneySlice slice with
    | some (.CurrencyMismatchError c1 c2) => .error (.CurrencyMismatchError c1 c2)
    | some err => .error (.Errorf "sum validation failed: %w" err)
    | none => Sum.loop ⟨0, first.currency⟩ slice

/-- The loop of Map: `result` holds the elements written so far, in order. -/
def Map.loop (transform : Money → Money) (result : List Money) :
    List Money → Except MoneyError MoneySlice
  | [] => .ok result
  | money :: rest =>
    if (transform money).currency ≠ money.currency then
      .error (.ValidationError "transform" "transformation must maintain the same currency")
    else
      Map.loop transform (result ++ [transform money]) rest

/-- Average returns the arithmetic mean of a slice of Money values.  The
argument `inverse` gives, for each length n, the `float64` factor
`1.0 / float64(n)`. -/
def Average (slice : MoneySlice) (inverse : Nat → FloatFactor)
    (DefaultRoundingMethod : RoundingMethod) : Except MoneyError Money :=
  if slice.length = 0 then
    .error (.ValidationError "slice" "empty slice provided")
  else
    match Sum slice with
    | .error err => .error (.Errorf "average calculation failed: %w" err)
    | .ok sum => .ok (sum.Multiply (inverse slice.length) DefaultRoundingMethod)

/-- Map applies a transformation function to each element in the slice. -/
def Map (slice : MoneySlice) (transform : Money → Money) : Except MoneyError MoneySlice :=
  if slice.length = 0 then .ok []
  else Map.loop transform [] slice

/-! ## operations.go: Abs -/

/-- Abs returns the absolute value of Money. -/
def Money.Abs (m : Money) : Money :=
  if m.amount < 0 then ⟨wrap64 (-m.amount), m.currency⟩ else ⟨m.amount, m.currency⟩

/-! ## errors.go: ValidateAmount -/

/-- ValidateAmount checks if an amount is within safe bounds for monetary
calculations; `none` is the Go result `nil`. -/
def ValidateAmount (amount : Int) : Option MoneyError :=
  if amount < Int.tdiv MinInt64 100 ∨ amount > Int.tdiv MaxInt64 100 then
    some (.ValidationError "amount" "amount exceeds safe bounds for monetary calculations")
  else none

/-! ## currency.go: conversion through a reference currency -/

/-- CurrencyConverter defines the interface for getting exchange rates: the
method `GetRate(fromCurrency, toCurrency, date)`.  A returned rate is the
`float64` factor it stands for, a returned error is the text that `%v` prints
for it; the date is an optional point in time. -/
abbrev CurrencyConverter := String → String → Option Int → Except String FloatFactor

/-- ConvertViaReference converts to another currency using a reference
currency and optional date.  The process-wide variables DefaultConverter and
DefaultRoundingMethod are explicit arguments.  The result is the list of the
rate lookups made, in order, as pairs (from, to), together with the returned
value; `none` means that formatBrazilianAmount returned nothing within the
depth `fuel`. -/
def Money.ConvertViaReference (fuel : Nat) (m : Money)
    (targetCurrency referenceCurrency : String) (date : Option Int)
    (DefaultConverter : Option CurrencyConverter) (DefaultRoundingMethod : RoundingMethod) :
    List (String × String) × Option (Except MoneyError Money) :=
  match DefaultConverter with
  | none => ([], some (.error (.ValidationError "converter" "no currency converter configured")))
  | some converter =>
    match converter m.currency.Code referenceCurrency date with
    | .error err =>
      ([(m.currency.Code, referenceCurrency)],
        some (.error (.ValidationError "exchange_rate"
          ("could not fetch rate from " ++ m.currency.Code ++ " to " ++ referenceCurrency ++
            ": " ++ err))))
    | .ok toReferenceRate =>
      let referenceAmount := Int.tdiv (round (toReferenceRate m.amount) DefaultRoundingMethod) 10
      let lookups := [(m.currency.Code, referenceCurrency), (referenceCurrency, targetCurrency)]
      match converter referenceCurrency targetCurrency date with
      | .error err =>
        (lookups,
          some (.error (.ValidationError "exchange_rate"
            ("could not fetch rate from " ++ referenceCurrency ++ " to " ++ targetCurrency ++
              ": " ++ err))))
      | .ok fromReferenceRate =>
        match GetCurrency targetCurrency with
        | .error err => (lookups, some (.error err))
        | .ok targetCurrencyObj =>
          let targetAmount :=
            Int.tdiv (round (fromReferenceRate referenceAmount) DefaultRoundingMethod) 10
          if targetCurrencyObj.Code = "BRL" then
            match formatBrazilianAmount fuel targetAmount with
            | none => (lookups, none)
            | some amount => (lookups, some (.ok ⟨amount, targetCurrencyObj⟩))
          else (lookups, some (.ok ⟨targetAmount, targetCurrencyObj⟩))

/-! ## collections.go: sorting -/

/-- The method Len of MoneySlice. -/
def MoneySlice.Len (ms : MoneySlice) : Nat := ms.length

/-- The method Swap of MoneySlice (an index out of range stops the Go
program; the slice is then left as it is). -/
def MoneySlice.Swap (ms : MoneySlice) (i j : Nat) : MoneySlice :=
  match ms[i]?, ms[j]? with
  | some a, some b => (ms.set i b).set j a
  | _, _ => ms

/-- The method Less of MoneySlice: the amounts are compared, the currencies
are not looked at (an index out of range stops the Go program; `false` stands
for that case). -/
def MoneySlice.Less (ms : MoneySlice) (i j : Nat) : Bool :=
  match ms[i]?, ms[j]? with
  | some a, some b => decide (a.amount < b.amount)
  | _, _ => false

/-- The inner loop of the standard library's `insertionSort` with lower bound
0: `for j := i; j > 0 && data.Less(j, j-1); j-- { data.Swap(j, j-1) }`,
started at index `j`. -/
def insertionSort.inner (data : MoneySlice) : Nat → MoneySlice
  | 0 => data
  | j + 1 =>
    if MoneySlice.Less data (j + 1) j then
      insertionSort.inner (MoneySlice.Swap data (j + 1) j) j
    else data

/-- The outer loop of the standard library's `insertionSort`:
`for i := 1; i < data.Len(); i++ { ... }`, continued from index `i`; the first
argument bounds the number of rounds. -/
def insertionSort.outer : Nat → MoneySlice → Nat → MoneySlice
  | 0, data, _ => data
  | fuel + 1, data, i =>
    if i < MoneySlice.Len data then
      insertionSort.outer fuel (insertionSort.inner data i) (i + 1)
    else data

/-- The function `sort.Sort` of the Go standard library, given by the contents
it leaves in the slice.  It is not part of the package; it reaches the slice
only through the methods Len, Less and Swap.  It returns at once when Len is
at most 1 and otherwise runs, on a slice of at most 12 elements, the insertion
sort modelled here; on longer slices it runs other algorithms, which also
leave an ascending permutation.  SortMoneySlice calls it only on a slice of
one currency, where the ascending permutation is a single list of values. -/
def sortSort (data : MoneySlice) : MoneySlice :=
  if MoneySlice.Len data ≤ 1 then data
  else insertionSort.outer (MoneySlice.Len data) data 1

/-- SortMoneySlice sorts a slice of Money values in ascending order.  The
result is the contents of the slice after the call and the returned error. -/
def SortMoneySlice (slice : MoneySlice) : MoneySlice × Option MoneyError :=
  match ValidateMoneySlice slice with
  | some (.CurrencyMismatchError c1 c2) => (slice, some (.CurrencyMismatchError c1 c2))
  | some err => (slice, some (.Errorf "sort validation failed: %w" err))
  | none => (sortSort slice, none)

/-! ## Concrete values used in instances -/

/-- The US dollar entry of the registry. -/
def usd : Currency := ⟨"USD", "$", 2, "Dollar", "Dollars", ",", ".", "before"⟩

/-- The euro entry of the registry. -/
def eur : Currency := ⟨"EUR", "€", 2, "Euro", "Euros", ".", ",", "before"⟩

/-- The Brazilian real entry of the registry. -/
def brl : Currency := ⟨"BRL", "R$", 2, "Real", "Reais", ".", ",", "before"⟩

/-- The yen entry of the registry. -/
def jpy : Currency := ⟨"JPY", "¥", 0, "Yen", "Yen", ",", "", "before"⟩

/-- The Argentine peso entry of the registry. -/
def ars : Currency := ⟨"ARS", "$", 0, "Peso", "Pesos", ".", ",", "before"⟩

/-- The Swedish krona entry of the registry. -/
def sek : Currency := ⟨"SEK", "kr", 2, "Krona", "Kronor", " ", ",", "after"⟩

/-- The payments of the collection example: 1000, 2000, -500 and 1500 USD. -/
def payments : MoneySlice := [⟨1000, usd⟩, ⟨2000, usd⟩, ⟨-500, usd⟩, ⟨1500, usd⟩]

/-- A converter that knows the rate 2 from EUR to USD and 5 from USD to BRL
and reports every other pair as not found. -/
def exampleConverter : CurrencyConverter :=
  fun fromCurrency toCurrency _ =>
    if fromCurrency = "EUR" ∧ toCurrency = "USD" then .ok (exactFactor 2 1)
    else if fromCurrency = "USD" ∧ toCurrency = "BRL" then .ok (exactFactor 5 1)
    else .error ("rate not found for " ++ fromCurrency ++ " to " ++ toCurrency)

/-! ## Basic facts about the machine-integer model -/

theorem wrap64_of_inInt64 {x : Int} (h : inInt64 x) : wrap64 x = x := by
  unfold inInt64 MinInt64 MaxInt64 at h
  unfold wrap64
  omega

theorem inInt64_wrap64 (x : Int) : inInt64 (wrap64 x) := by
  unfold inInt64 MinInt64 MaxInt64 wrap64
  omega

/-- Add on same-currency `int64` operands, with the machine arithmetic resolved. -/
theorem Add_eq (a b : Money) (ha : inInt64 a.amount) (hb : inInt64 b.amount)
    (hc : a.currency = b.currency) :
    a.Add b = if inInt64 (a.amount + b.amount)
      then .ok ⟨a.amount + b.amount, a.currency⟩
      else .error (.OverflowError "addition" a.amount b.amount) := by
  unfold Money.Add
  rw [if_neg (not_not.mpr hc)]
  simp only [Bool.or_eq_true, Bool.and_eq_true, decide_eq_true_eq]
  unfold inInt64 MinInt64 MaxInt64 at ha hb
  by_cases h : inInt64 (a.amount + b.amount)
  · rw [if_pos h, wrap64_of_inInt64 h]
    unfold inInt64 MinInt64 MaxInt64 at h
    rw [if_neg]
    unfold wrap64 MinInt64 MaxInt64
    omega
  · rw [if_neg h]
    unfold inInt64 MinInt64 MaxInt64 at h
    rw [if_pos]
    unfold wrap64 MinInt64 MaxInt64
    omega

/-- Subtract on same-currency `int64` operands, with the machine arithmetic resolved. -/
theorem Subtract_eq (a b : Money) (ha : inInt64 a.amount) (hb : inInt64 b.amount)
    (hc : a.currency = b.currency) :
    a.Subtract b = if inInt64 (a.amount - b.amount)
      then .ok ⟨a.amount - b.amount, a.currency⟩
      else .error (.OverflowError "subtraction" a.amount b.amount) := by
  unfold Money.Subtract
  rw [if_neg (not_not.mpr hc)]
  simp only [Bool.or_eq_true, Bool.and_eq_true, decide_eq_true_eq]
  unfold inInt64 MinInt64 MaxInt64 at ha hb
  by_cases h : inInt64 (a.amount - b.amount)
  · rw [if_pos h, wrap64_of_inInt64 h]
    unfold inInt64 MinInt64 MaxInt64 at h
    rw [if_neg]
    unfold wrap64 MinInt64 MaxInt64
    omega
  · rw [if_neg h]
    unfold inInt64 MinInt64 MaxInt64 at h
    rw [if_pos]
    unfold wrap64 MinInt64 MaxInt64
    omega

/-- The empty string is not a key of the registry. -/
theorem lookup_empty : CurrencyMap.lookup "" = none := by
  decide

/-- GetCurrency on a key of the registry returns the registry entry. -/
theorem GetCurrency_of_lookup {code : String} {cur : Currency}
    (h : CurrencyMap.lookup code = some cur) : GetCurrency code = .ok cur := by
  have hne : code ≠ "" := by
    intro he
    rw [he, lookup_empty] at h
    exact Option.noConfusion h
  unfold GetCurrency
  rw [if_neg hne, h]

/-- GetCurrency on a non-empty string that is not a key reports that string. -/
theorem GetCurrency_of_not_key {code : String} (hne : code ≠ "")
    (h : CurrencyMap.lookup code = none) :
    GetCurrency code = .error (.GetCurrencyError code) := by
  unfold GetCurrency
  rw [if_neg hne, h]

/-- A successful Add on same-currency `int64` operands returns the exact sum,
which is then in range. -/
theorem Add_ok_inv (a b s : Money) (ha : inInt64 a.amount) (hb : inInt64 b.amount)
    (hc : a.currency = b.currency) (h : a.Add b = .ok s) :
    inInt64 (a.amount + b.amount) ∧ s = ⟨a.amount + b.amount, a.currency⟩ := by
  rw [Add_eq a b ha hb hc] at h
  by_cases hr : inInt64 (a.amount + b.amount)
  · rw [if_pos hr] at h
    cases h
    exact ⟨hr, rfl⟩
  · rw [if_neg hr] at h
    cases h

/-- On a non-negative dividend Go's truncating `/ 10` is floor division. -/
theorem tdiv_ten_of_nonneg {v : Int} (h : 0 ≤ v) : Int.tdiv v 10 = v / 10 :=
  Int.tdiv_eq_ediv h (by decide)

/-- On a non-negative dividend Go's `% 10` is the non-negative remainder. -/
theorem tmod_ten_of_nonneg {v : Int} (h : 0 ≤ v) : Int.tmod v 10 = v % 10 :=
  Int.tmod_eq_emod h (by decide)

/-- The RoundHalfUp branch of `round`. -/
theorem round_RoundHalfUp (v : Int) :
    round v RoundHalfUp =
      if Int.tmod v 10 ≥ 5 then wrap64 (Int.tdiv v 10 + 1) else Int.tdiv v 10 := rfl

/-- The RoundHalfEven branch of `round`. -/
theorem round_RoundHalfEven (v : Int) :
    round v RoundHalfEven =
      if Int.tmod v 10 > 5 ∨ (Int.tmod v 10 = 5 ∧ Int.tmod (Int.tdiv v 10) 2 ≠ 0)
      then wrap64 (Int.tdiv v 10 + 1) else Int.tdiv v 10 := rfl

/-- The RoundUp branch of `round`. -/
theorem round_RoundUp (v : Int) :
    round v RoundUp =
      if Int.tmod v 10 ≠ 0 then wrap64 (Int.tdiv v 10 + 1) else Int.tdiv v 10 := rfl

/-- Adding one to the tenth of a non-negative `int64` value does not wrap. -/
theorem wrap64_tenth_succ {v : Int} (h0 : 0 ≤ v) (hv : inInt64 v) :
    wrap64 (v / 10 + 1) = v / 10 + 1 := by
  apply wrap64_of_inInt64
  unfold inInt64 MinInt64 MaxInt64 at *
  omega

/-- On a negative dividend Go's truncating `/ 10` rounds toward zero. -/
theorem tdiv_ten_of_neg {v : Int} (h : v < 0) : Int.tdiv v 10 = -((-v) / 10) := by
  have hv : v = -(-v) := by omega
  have hn : (0 : Int) ≤ -v := by omega
  calc Int.tdiv v 10 = Int.tdiv (-(-v)) 10 := by rw [← hv]
    _ = -(Int.tdiv (-v) 10) := Int.neg_tdiv (-v) 10
    _ = -((-v) / 10) := by rw [Int.tdiv_eq_ediv hn (by decide)]

/-- On a negative dividend Go's `% 10` is the non-positive remainder. -/
theorem tmod_ten_of_neg {v : Int} (h : v < 0) : Int.tmod v 10 = -((-v) % 10) := by
  rw [Int.tmod_def, tdiv_ten_of_neg h]
  omega

/-- RoundUp on non-negative `int64` values rounds away from zero: with a
nonzero last digit the result is the truncated tenth plus one, is positive and
ten times it exceeds the value; with last digit zero it is the exact tenth. -/
theorem round_RoundUp_of_nonneg (v : Int) (h0 : 0 ≤ v) (hv : inInt64 v) :
    (Int.tmod v 10 ≠ 0 →
      round v RoundUp = Int.tdiv v 10 + 1 ∧ 0 < round v RoundUp ∧
        v < 10 * round v RoundUp) ∧
    (Int.tmod v 10 = 0 → round v RoundUp = Int.tdiv v 10 ∧ 10 * round v RoundUp = v) := by
  rw [round_RoundUp, tdiv_ten_of_nonneg h0, tmod_ten_of_nonneg h0, wrap64_tenth_succ h0 hv]
  constructor
  · intro h
    rw [if_pos h]
    omega
  · intro h
    rw [if_neg (not_not.mpr h)]
    omega

/-- RoundUp on negative `int64` values with a nonzero last digit returns the
truncated tenth plus one, which lies more than one whole unit above the
value: ten times the result exceeds the value by 11 to 19. -/
theorem round_RoundUp_of_neg (v : Int) (h0 : v < 0) (hv : inInt64 v)
    (hm : Int.tmod v 10 ≠ 0) :
    round v RoundUp = Int.tdiv v 10 + 1 ∧
    11 ≤ 10 * round v RoundUp - v ∧ 10 * round v RoundUp - v ≤ 19 := by
  have hw : wrap64 (Int.tdiv v 10 + 1) = Int.tdiv v 10 + 1 := by
    apply wrap64_of_inInt64
    rw [tdiv_ten_of_neg h0]
    unfold inInt64 MinInt64 MaxInt64 at *
    omega
  rw [round_RoundUp, if_pos hm, hw]
  rw [tmod_ten_of_neg h0] at hm
  rw [tdiv_ten_of_neg h0]
  omega

/-- On a non-negative dividend Go's `% 100` is the non-negative remainder. -/
theorem tmod_hundred_of_nonneg {v : Int} (h : 0 ≤ v) : Int.tmod v 100 = v % 100 :=
  Int.tmod_eq_emod h (by decide)

/-- The band table of formatBrazilianAmount: on cents 0..99 the chosen band
value is the nearest multiple of five. -/
theorem formatBrazilianAmount_bands (c w : Int) (h0 : 0 ≤ c) (h1 : c < 100) :
      (if c < 3 then some (wrap64 (w + 0))
      else if c < 8 then some (wrap64 (w + 5))
      else if c < 13 then some (wrap64 (w + 10))
      else if c < 18 then some (wrap64 (w + 15))
      else if c < 23 then some (wrap64 (w + 20))
      else if c < 28 then some (wrap64 (w + 25))
      else if c < 33 then some (wrap64 (w + 30))
      else if c < 38 then some (wrap64 (w + 35))
      else if c < 43 then some (wrap64 (w + 40))
      else if c < 48 then some (wrap64 (w + 45))
      else if c < 53 then some (wrap64 (w + 50))
      else if c < 58 then some (wrap64 (w + 55))
      else if c < 63 then some (wrap64 (w + 60))
      else if c < 68 then some (wrap64 (w + 65))
      else if c < 73 then some (wrap64 (w + 70))
      else if c < 78 then some (wrap64 (w + 75))
      else if c < 83 then some (wrap64 (w + 80))
      else if c < 88 then some (wrap64 (w + 85))
      else if c < 93 then some (wrap64 (w + 90))
      else if c < 98 then some (wrap64 (w + 95))
      else some (wrap64 (w + 100)) : Option Int) =
      some (wrap64 (w + 5 * ((c + 2) / 5))) := by
  by_cases h3 : c < 3
  · rw [if_pos h3]; congr 2; omega
  rw [if_neg h3]
  by_cases h8 : c < 8
  · rw [if_pos h8]; congr 2; omega
  rw [if_neg h8]
  by_cases h13 : c < 13
  · rw [if_pos h13]; congr 2; omega
  rw [if_neg h13]
  by_cases h18 : c < 18
  · rw [if_pos h18]; congr 2; omega
  rw [if_neg h18]
  by_cases h23 : c < 23
  · rw [if_pos h23]; congr 2; omega
  rw [if_neg h23]
  by_cases h28 : c < 28
  · rw [if_pos h28]; congr 2; omega
  rw [if_neg h28]
  by_cases h33 : c < 33
  · rw [if_pos h33]; congr 2; omega
  rw [if_neg h33]
  by_cases h38 : c < 38
  · rw [if_pos h38]; congr 2; omega
  rw [if_neg h38]
  by_cases h43 : c < 43
  · rw [if_pos h43]; congr 2; omega
  rw [if_neg h43]
  by_cases h48 : c < 48
  · rw [if_pos h48]; congr 2; omega
  rw [if_neg h48]
  by_cases h53 : c < 53
  · rw [if_pos h53]; congr 2; omega
  rw [if_neg h53]
  by_cases h58 : c < 58
  · rw [if_pos h58]; congr 2; omega
  rw [if_neg h58]
  by_cases h63 : c < 63
  · rw [if_pos h63]; congr 2; omega
  rw [if_neg h63]
  by_cases h68 : c < 68
  · rw [if_pos h68]; congr 2; omega
  rw [if_neg h68]
  by_cases h73 : c < 73
  · rw [if_pos h73]; congr 2; omega
  rw [if_neg h73]
  by_cases h78 : c < 78
  · rw [if_pos h78]; congr 2; omega
  rw [if_neg h78]
  by_cases h83 : c < 83
  · rw [if_pos h83]; congr 2; omega
  rw [if_neg h83]
  by_cases h88 : c < 88
  · rw [if_pos h88]; congr 2; omega
  rw [if_neg h88]
  by_cases h93 : c < 93
  · rw [if_pos h93]; congr 2; omega
  rw [if_neg h93]
  by_cases h98 : c < 98
  · rw [if_pos h98]; congr 2; omega
  rw [if_neg h98]
  congr 2; omega

/-- On a non-negative `int64` amount formatBrazilianAmount returns, without a
nested call and without wrap-around, the nearest multiple of five. -/
theorem formatBrazilianAmount_of_nonneg (fuel : Nat) (a : Int) (h0 : 0 ≤ a)
    (ha : inInt64 a) : formatBrazilianAmount (fuel + 1) a = some (5 * ((a + 2) / 5)) := by
  unfold formatBrazilianAmount
  rw [if_neg (by omega), tmod_hundred_of_nonneg h0]
  unfold inInt64 MinInt64 MaxInt64 at ha
  have hb := formatBrazilianAmount_bands (a % 100) (wrap64 (a - a % 100)) (by omega) (by omega)
  refine hb.trans ?_
  congr 1
  unfold wrap64
  omega

/-- The loop of ValidateMoneySlice returns nil exactly when every element it
visits has the reference currency. -/
theorem ValidateMoneySlice_loop_none_iff (cur : Currency) (rest : List Money) :
    ValidateMoneySlice.loop cur rest = none ↔ ∀ m ∈ rest, m.currency = cur := by
  induction rest with
  | nil => simp [ValidateMoneySlice.loop]
  | cons x xs ih =>
    unfold ValidateMoneySlice.loop
    by_cases hx : x.currency = cur
    · rw [if_neg (not_not.mpr hx), ih]
      simp [hx]
    · rw [if_pos hx]
      simp [hx]

/-- When some visited element has another currency, the loop of
ValidateMoneySlice reports the earliest such element. -/
theorem ValidateMoneySlice_loop_earliest (cur : Currency) (rest : List Money)
    (h : ∃ m ∈ rest, m.currency ≠ cur) :
    ∃ (i : Nat) (m : Money), rest[i]? = some m ∧ m.currency ≠ cur ∧
      (∀ (j : Nat) (n : Money), j < i → rest[j]? = some n → n.currency = cur) ∧
      ValidateMoneySlice.loop cur rest =
        some (.CurrencyMismatchError cur.Code m.currency.Code) := by
  induction rest with
  | nil =>
    obtain ⟨m, hm, _⟩ := h
    cases hm
  | cons x xs ih =>
    unfold ValidateMoneySlice.loop
    by_cases hx : x.currency = cur
    · have h2 : ∃ m ∈ xs, m.currency ≠ cur := by
        obtain ⟨m, hm, hne⟩ := h
        rcases List.mem_cons.mp hm with he | hmem
        · exact absurd (he ▸ hx) hne
        · exact ⟨m, hmem, hne⟩
      obtain ⟨i, m, hi, hne, hbefore, hres⟩ := ih h2
      refine ⟨i + 1, m, by rw [List.getElem?_cons_succ]; exact hi, hne, ?_, ?_⟩
      · intro j n hj hn
        cases j with
        | zero =>
          rw [List.getElem?_cons_zero] at hn
          cases hn
          exact hx
        | succ j =>
          rw [List.getElem?_cons_succ] at hn
          exact hbefore j n (by omega) hn
      · rw [if_neg (not_not.mpr hx)]
        exact hres
    · refine ⟨0, x, List.getElem?_cons_zero, hx, ?_, ?_⟩
      · intro j n hj
        omega
      · rw [if_pos hx]

/-- On a non-empty slice ValidateMoneySlice is its loop over the tail. -/
theorem ValidateMoneySlice_cons (first : Money) (rest : List Money) :
    ValidateMoneySlice (first :: rest) = ValidateMoneySlice.loop first.currency rest := by
  unfold ValidateMoneySlice
  cases rest with
  | nil => simp [ValidateMoneySlice.loop]
  | cons x xs => simp

/-- The loop of Map returns the ValidationError when some element changes
currency under the transform. -/
theorem Map_loop_error (transform : Money → Money) (l acc : List Money)
    (h : ∃ m ∈ l, (transform m).currency ≠ m.currency) :
    Map.loop transform acc l =
      .error (.ValidationError "transform"
        "transformation must maintain the same currency") := by
  induction l generalizing acc with
  | nil =>
    obtain ⟨m, hm, _⟩ := h
    cases hm
  | cons x xs ih =>
    unfold Map.loop
    by_cases hx : (transform x).currency = x.currency
    · rw [if_neg (not_not.mpr hx)]
      apply ih
      obtain ⟨m, hm, hne⟩ := h
      rcases List.mem_cons.mp hm with he | hmem
      · exact absurd (he ▸ hx) hne
      · exact ⟨m, hmem, hne⟩
    · rw [if_pos hx]

/-- The loop of Map returns the transformed elements, in order, when every
element keeps its currency under the transform. -/
theorem Map_loop_ok (transform : Money → Money) (l acc : List Money)
    (h : ∀ m ∈ l, (transform m).currency = m.currency) :
    Map.loop transform acc l = .ok (acc ++ l.map transform) := by
  induction l generalizing acc with
  | nil => simp [Map.loop]
  | cons x xs ih =>
    unfold Map.loop
    rw [if_neg (not_not.mpr (h x (List.mem_cons_self x xs))),
      ih _ (fun m hm => h m (List.mem_cons_of_mem x hm))]
    simp

/-- Map on any slice is its loop started with the empty result. -/
theorem Map_eq_loop (slice : MoneySlice) (transform : Money → Money) :
    Map slice transform = Map.loop transform [] slice := by
  unfold Map
  cases slice with
  | nil => simp [Map.loop]
  | cons x xs => simp

/-- The loop of Sum on elements of the running currency whose running sums
stay in the `int64` range returns the exact sum. -/
theorem Sum_loop_ok (l : List Money) (acc : Money) (hacc : inInt64 acc.amount)
    (hl : ∀ m ∈ l, m.currency = acc.currency ∧ inInt64 m.amount)
    (hpre : ∀ n, inInt64 (acc.amount + ((l.take n).map Money.amount).sum)) :
    Sum.loop acc l = .ok ⟨acc.amount + (l.map Money.amount).sum, acc.currency⟩ := by
  induction l generalizing acc with
  | nil => simp [Sum.loop]
  | cons x xs ih =>
    have hx := hl x (List.mem_cons_self x xs)
    have h1 : inInt64 (acc.amount + x.amount) := by
      have := hpre 1
      simpa using this
    unfold Sum.loop
    rw [Add_eq acc x hacc hx.2 hx.1.symm, if_pos h1]
    simp only []
    rw [ih ⟨acc.amount + x.amount, acc.currency⟩ h1
      (fun m hm => hl m (List.mem_cons_of_mem x hm))]
    · simp [Int.add_assoc]
    · intro n
      have := hpre (n + 1)
      simpa [Int.add_assoc] using this

/-- The truncated tenth of an `int64` value lies within 922337203685477580 of
zero. -/
theorem tdiv_ten_bound {x : Int} (hx : inInt64 x) :
    -922337203685477580 ≤ Int.tdiv x 10 ∧ Int.tdiv x 10 ≤ 922337203685477580 := by
  unfold inInt64 MinInt64 MaxInt64 at hx
  by_cases h : 0 ≤ x
  · rw [tdiv_ten_of_nonneg h]
    omega
  · rw [tdiv_ten_of_neg (by omega)]
    omega

/-- The truncated tenth of an `int64` value is an `int64` value. -/
theorem tdiv_ten_inInt64 {x : Int} (hx : inInt64 x) : inInt64 (Int.tdiv x 10) := by
  have h := tdiv_ten_bound hx
  unfold inInt64 MinInt64 MaxInt64
  omega

/-- Every branch of `round` returns an `int64` value on an `int64` value. -/
theorem round_inInt64 (v : Int) (method : RoundingMethod) (hv : inInt64 v) :
    inInt64 (round v method) := by
  unfold round
  simp only []
  split_ifs <;> first | exact inInt64_wrap64 _ | exact tdiv_ten_inInt64 hv

/-- On a negative `int64` amount other than MinInt64, formatBrazilianAmount
makes one nested call, on the negated amount, and returns the negated nearest
multiple of five. -/
theorem formatBrazilianAmount_of_neg (fuel : Nat) (a : Int) (h0 : a < 0)
    (ha : MinInt64 < a) :
    formatBrazilianAmount (fuel + 2) a = some (-(5 * ((-a + 2) / 5))) := by
  have hn : inInt64 (-a) := by
    unfold inInt64 MinInt64 MaxInt64
    unfold MinInt64 at ha
    omega
  rw [formatBrazilianAmount, if_pos h0, wrap64_of_inInt64 hn,
    formatBrazilianAmount_of_nonneg fuel (-a) (by omega) hn]
  unfold inInt64 MinInt64 MaxInt64 at hn
  simp only [Option.map_some']
  congr 1
  unfold wrap64
  omega

/-- Multiply by a whole-number factor, on amounts where the `float64`
products are exact, returns the truncated tenth of the product. -/
theorem Multiply_whole_factor (m : Money) (k : Int) :
    m.Multiply (exactFactor k 1) RoundHalfUp = ⟨Int.tdiv (m.amount * k) 10, m.currency⟩ := by
  unfold Money.Multiply exactFactor
  rw [Int.tdiv_one, round_RoundHalfUp, Int.mul_tmod_left, if_neg (by decide),
    Int.mul_tdiv_cancel _ (by decide)]

/-- On an amount within 922337203685477580 of zero, formatBrazilianAmount
returns within two nested calls, and its result is a multiple of five. -/
theorem formatBrazilianAmount_of_tenth (fuel : Nat) (t : Int)
    (ht : -922337203685477580 ≤ t ∧ t ≤ 922337203685477580) :
    ∃ r, formatBrazilianAmount (fuel + 2) t = some r ∧ 5 ∣ r := by
  by_cases h0 : 0 ≤ t
  · refine ⟨_, formatBrazilianAmount_of_nonneg (fuel + 1) t h0 ?_, by omega⟩
    unfold inInt64 MinInt64 MaxInt64
    omega
  · refine ⟨_, formatBrazilianAmount_of_neg fuel t (by omega) ?_, by omega⟩
    unfold MinInt64
    omega

/-- The code "BRL" is a key of the registry, with the entry `brl`. -/
theorem GetCurrency_BRL : GetCurrency "BRL" = .ok brl :=
  GetCurrency_of_lookup (by decide)

/-- Abs on an `int64` amount other than MinInt64 keeps the currency and
returns the absolute value, without wrap-around. -/
theorem Abs_of_ne_min (m : Money) (hm : inInt64 m.amount) (hne : m.amount ≠ MinInt64) :
    m.Abs = ⟨|m.amount|, m.currency⟩ ∧ 0 ≤ (m.Abs).amount := by
  unfold inInt64 MinInt64 MaxInt64 at hm
  unfold MinInt64 at hne
  unfold Money.Abs
  by_cases h : m.amount < 0
  · have hw : wrap64 (-m.amount) = -m.amount := by
      unfold wrap64
      omega
    rw [if_pos h, hw, abs_of_neg h]
    exact ⟨rfl, by show 0 ≤ -m.amount; omega⟩
  · rw [if_neg h, abs_of_nonneg (by omega)]
    exact ⟨rfl, by show 0 ≤ m.amount; omega⟩

/-- The negation of MinInt64 wraps around to MinInt64. -/
theorem wrap64_neg_MinInt64 : wrap64 (-MinInt64) = MinInt64 := by
  decide

/-- On MinInt64 formatBrazilianAmount calls itself on MinInt64 again: within
no depth of nested calls does it return. -/
theorem formatBrazilianAmount_MinInt64 (fuel : Nat) :
    formatBrazilianAmount fuel MinInt64 = none := by
  induction fuel with
  | zero => rfl
  | succ n ih =>
    rw [formatBrazilianAmount, if_pos (by decide), wrap64_neg_MinInt64, ih]
    rfl

/-- On every `int64` amount other than MinInt64 formatBrazilianAmount returns
with at most one nested call. -/
theorem formatBrazilianAmount_returns (fuel : Nat) (a : Int) (ha : inInt64 a)
    (hne : a ≠ MinInt64) : ∃ r, formatBrazilianAmount (fuel + 2) a = some r := by
  by_cases h0 : 0 ≤ a
  · exact ⟨_, formatBrazilianAmount_of_nonneg (fuel + 1) a h0 ha⟩
  · refine ⟨_, formatBrazilianAmount_of_neg fuel a (by omega) ?_⟩
    unfold inInt64 at ha
    omega

/-- The RoundHalfDown branch of `round`. -/
theorem round_RoundHalfDown (v : Int) :
    round v RoundHalfDown =
      if Int.tmod v 10 > 5 then wrap64 (Int.tdiv v 10 + 1) else Int.tdiv v 10 := rfl

/-- The RoundDown branch of `round`. -/
theorem round_RoundDown (v : Int) : round v RoundDown = Int.tdiv v 10 := rfl

/-- A successful Subtract on same-currency `int64` operands returns the exact
difference, which is then in range. -/
theorem Subtract_ok_inv (a b s : Money) (ha : inInt64 a.amount) (hb : inInt64 b.amount)
    (hc : a.currency = b.currency) (h : a.Subtract b = .ok s) :
    inInt64 (a.amount - b.amount) ∧ s = ⟨a.amount - b.amount, a.currency⟩ := by
  rw [Subtract_eq a b ha hb hc] at h
  by_cases hr : inInt64 (a.amount - b.amount)
  · rw [if_pos hr] at h
    cases h
    exact ⟨hr, rfl⟩
  · rw [if_neg hr] at h
    cases h

/-- ValidateAmount returns nil exactly on the amounts within
92233720368547758 of zero. -/
theorem ValidateAmount_none_iff (x : Int) :
    ValidateAmount x = none ↔ -92233720368547758 ≤ x ∧ x ≤ 92233720368547758 := by
  have h1 : Int.tdiv MinInt64 100 = -92233720368547758 := by decide
  have h2 : Int.tdiv MaxInt64 100 = 92233720368547758 := by decide
  unfold ValidateAmount
  rw [h1, h2]
  constructor
  · intro h
    by_contra hno
    rw [if_pos (by omega)] at h
    cases h
  · intro h
    rw [if_neg (by omega)]

/-- Every entry of an association list found under a key carries that key as
its code, when every pair of the list pairs a code with an entry of that
code. -/
theorem lookup_code_of_forall (l : List (String × Currency))
    (h : ∀ p ∈ l, p.2.Code = p.1) (k : String) (cur : Currency)
    (hl : l.lookup k = some cur) : cur.Code = k := by
  induction l with
  | nil => cases hl
  | cons p ps ih =>
    obtain ⟨key, entry⟩ := p
    rw [List.lookup_cons] at hl
    by_cases hk : (k == key) = true
    · rw [hk] at hl
      cases hl
      have hp := h (key, cur) (List.mem_cons_self _ _)
      rw [eq_of_beq hk]
      exact hp
    · rw [Bool.not_eq_true] at hk
      rw [hk] at hl
      exact ih (fun q hq => h q (List.mem_cons_of_mem _ hq)) hl

/-- Every key of CurrencyMap maps to a Currency whose Code is that key. -/
theorem CurrencyMap_code (k : String) (cur : Currency)
    (hl : CurrencyMap.lookup k = some cur) : cur.Code = k :=
  lookup_code_of_forall CurrencyMap (by decide) k cur hl

/-- A successful New found the code in the registry and stored the amount. -/
theorem New_ok_inv (x : Int) (c : String) (m : Money) (h : New x c = .ok m) :
    ∃ cur, CurrencyMap.lookup c = some cur ∧ m = ⟨x, cur⟩ := by
  unfold New GetCurrency at h
  by_cases he : c = ""
  · rw [if_pos he] at h
    cases h
  · rw [if_neg he] at h
    cases hl : CurrencyMap.lookup c with
    | none =>
      rw [hl] at h
      cases h
    | some cur =>
      rw [hl] at h
      cases h
      exact ⟨cur, rfl, rfl⟩

/-- On equal currencies Add does not return a CurrencyMismatchError. -/
theorem Add_not_mismatch (a b : Money) (hc : a.currency = b.currency) (e1 e2 : String) :
    a.Add b ≠ .error (.CurrencyMismatchError e1 e2) := by
  unfold Money.Add
  rw [if_neg (not_not.mpr hc)]
  split
  · intro h
    cases h
  · intro h
    cases h

/-- On equal currencies Subtract does not return a CurrencyMismatchError. -/
theorem Subtract_not_mismatch (a b : Money) (hc : a.currency = b.currency)
    (e1 e2 : String) : a.Subtract b ≠ .error (.CurrencyMismatchError e1 e2) := by
  unfold Money.Subtract
  rw [if_neg (not_not.mpr hc)]
  split
  · intro h
    cases h
  · intro h
    cases h

/-- ValidateMoneySlice returns nil exactly when any two elements of the slice
have the same currency. -/
theorem ValidateMoneySlice_none_iff (slice : MoneySlice) :
    ValidateMoneySlice slice = none ↔
      ∀ a ∈ slice, ∀ b ∈ slice, a.currency = b.currency := by
  cases slice with
  | nil =>
    constructor
    · intro _ a ha
      cases ha
    · intro _
      rfl
  | cons first rest =>
    rw [ValidateMoneySlice_cons, ValidateMoneySlice_loop_none_iff]
    constructor
    · intro h a ha b hb
      have hfa : a.currency = first.currency := by
        rcases List.mem_cons.mp ha with he | hm
        · rw [he]
        · exact h a hm
      have hfb : b.currency = first.currency := by
        rcases List.mem_cons.mp hb with he | hm
        · rw [he]
        · exact h b hm
      rw [hfa, hfb]
    · intro h m hm
      exact h m (List.mem_cons_of_mem _ hm) first (List.mem_cons_self _ _)

/-- The loop of ValidateMoneySlice returns nil or a CurrencyMismatchError. -/
theorem ValidateMoneySlice_loop_cases (cur : Currency) (rest : List Money) :
    ValidateMoneySlice.loop cur rest = none ∨
      ∃ c1 c2, ValidateMoneySlice.loop cur rest = some (.CurrencyMismatchError c1 c2) := by
  induction rest with
  | nil => exact Or.inl rfl
  | cons x xs ih =>
    unfold ValidateMoneySlice.loop
    by_cases hx : x.currency = cur
    · rw [if_neg (not_not.mpr hx)]
      exact ih
    · rw [if_pos hx]
      exact Or.inr ⟨_, _, rfl⟩

/-- ValidateMoneySlice returns nil or a CurrencyMismatchError. -/
theorem ValidateMoneySlice_cases (slice : MoneySlice) :
    ValidateMoneySlice slice = none ∨
      ∃ c1 c2, ValidateMoneySlice slice = some (.CurrencyMismatchError c1 c2) := by
  cases slice with
  | nil => exact Or.inl rfl
  | cons first rest =>
    rw [ValidateMoneySlice_cons]
    exact ValidateMoneySlice_loop_cases first.currency rest

/-- The two elements next to each other after a front part of the slice. -/
theorem getElem?_adjacent (A B : List Money) (x y : Money) :
    (A ++ y :: x :: B)[A.length + 1]? = some x ∧ (A ++ y :: x :: B)[A.length]? = some y := by
  constructor
  · rw [List.getElem?_append_right (by omega)]
    simp
  · rw [List.getElem?_append_right (le_refl _)]
    simp

/-- Less on two adjacent indices compares the amounts of the two elements. -/
theorem Less_adjacent (A B : List Money) (x y : Money) :
    MoneySlice.Less (A ++ y :: x :: B) (A.length + 1) A.length = decide (x.amount < y.amount) := by
  unfold MoneySlice.Less
  rw [(getElem?_adjacent A B x y).1, (getElem?_adjacent A B x y).2]

/-- Swap on two adjacent indices exchanges the two elements. -/
theorem Swap_adjacent (A B : List Money) (x y : Money) :
    MoneySlice.Swap (A ++ y :: x :: B) (A.length + 1) A.length = A ++ x :: y :: B := by
  unfold MoneySlice.Swap
  rw [(getElem?_adjacent A B x y).1, (getElem?_adjacent A B x y).2]
  simp only []
  rw [List.set_append_right _ _ (by omega), List.set_append_right _ _ (le_refl _)]
  simp


/-- The inner loop, started behind a front part A on the element x, moves x
into A by swaps: the front part becomes a permutation of A with x, ascending
when A was, and the rest of the slice is untouched. -/
theorem insertionSort_inner_spec (A : List Money) :
    ∀ (x : Money) (B : List Money), ∃ C : List Money,
      insertionSort.inner (A ++ x :: B) A.length = C ++ B ∧ C.Perm (A ++ [x]) ∧
      (A.Pairwise (fun a b => a.amount ≤ b.amount) →
        C.Pairwise (fun a b => a.amount ≤ b.amount)) := by
  induction A using List.reverseRecOn with
  | nil =>
    intro x B
    exact ⟨[x], rfl, List.Perm.refl _, fun _ => List.pairwise_singleton _ _⟩
  | append_singleton A0 y ih =>
    intro x B
    have hform : (A0 ++ [y]) ++ x :: B = A0 ++ y :: x :: B := by simp
    have hlen : (A0 ++ [y]).length = A0.length + 1 := by simp
    rw [hform, hlen, insertionSort.inner, Less_adjacent]
    by_cases hlt : x.amount < y.amount
    · rw [if_pos (decide_eq_true hlt), Swap_adjacent]
      obtain ⟨C0, hC0, hperm, hsorted⟩ := ih x (y :: B)
      refine ⟨C0 ++ [y], ?_, ?_, ?_⟩
      · rw [hC0]
        simp
      · refine (hperm.append_right [y]).trans ?_
        rw [List.append_assoc, List.append_assoc]
        exact List.Perm.append_left A0 (List.Perm.swap y x [])
      · intro hA
        rw [List.pairwise_append] at hA ⊢
        obtain ⟨hA0, _, hAy⟩ := hA
        refine ⟨hsorted hA0, List.pairwise_singleton _ _, ?_⟩
        intro c hc b hb
        rw [List.mem_singleton] at hb
        subst hb
        have hc2 := hperm.mem_iff.mp hc
        rcases List.mem_append.mp hc2 with h1 | h1
        · exact hAy c h1 b (List.mem_singleton_self _)
        · rw [List.mem_singleton] at h1
          subst h1
          exact Int.le_of_lt hlt
    · rw [if_neg (by simpa using hlt)]
      refine ⟨(A0 ++ [y]) ++ [x], by simp, List.Perm.refl _, ?_⟩
      intro hA
      rw [List.pairwise_append]
      refine ⟨hA, List.pairwise_singleton _ _, ?_⟩
      intro c hc b hb
      rw [List.mem_singleton] at hb
      subst hb
      rw [List.pairwise_append] at hA
      obtain ⟨_, _, hAy⟩ := hA
      rcases List.mem_append.mp hc with h1 | h1
      · have := hAy c h1 y (List.mem_singleton_self _)
        omega
      · rw [List.mem_singleton] at h1
        subst h1
        omega

/-- The outer loop, continued behind a front part P, leaves a permutation of
the slice, ascending when P was and the bound covers the rest. -/
theorem insertionSort_outer_spec (fuel : Nat) :
    ∀ (P R : List Money), ∃ S : List Money,
      insertionSort.outer fuel (P ++ R) P.length = S ∧ S.Perm (P ++ R) ∧
      (P.Pairwise (fun a b => a.amount ≤ b.amount) → R.length ≤ fuel →
        S.Pairwise (fun a b => a.amount ≤ b.amount)) := by
  induction fuel with
  | zero =>
    intro P R
    refine ⟨P ++ R, rfl, List.Perm.refl _, ?_⟩
    intro hP hR
    have : R = [] := List.length_eq_zero.mp (by omega)
    rw [this, List.append_nil]
    exact hP
  | succ n ih =>
    intro P R
    cases R with
    | nil =>
      refine ⟨P ++ [], ?_, List.Perm.refl _, ?_⟩
      · rw [insertionSort.outer, if_neg]
        unfold MoneySlice.Len
        simp
      · intro hP _
        rw [List.append_nil]
        exact hP
    | cons x R1 =>
      obtain ⟨C, hC, hperm, hsorted⟩ := insertionSort_inner_spec P x R1
      have hlen : P.length + 1 = C.length := by
        rw [hperm.length_eq]
        simp
      obtain ⟨S, hS, hSperm, hSsorted⟩ := ih C R1
      refine ⟨S, ?_, ?_, ?_⟩
      · rw [insertionSort.outer, if_pos, hC, hlen]
        · exact hS
        · unfold MoneySlice.Len
          simp
      · refine hSperm.trans ?_
        refine (hperm.append_right R1).trans ?_
        simp
      · intro hP hR
        exact hSsorted (hsorted hP) (by simpa using hR)

/-- The model of `sort.Sort` leaves a permutation of the slice with
non-decreasing amounts. -/
theorem sortSort_spec (ms : MoneySlice) :
    (sortSort ms).Perm ms ∧ (sortSort ms).Pairwise (fun a b => a.amount ≤ b.amount) := by
  unfold sortSort MoneySlice.Len
  cases ms with
  | nil => exact ⟨List.Perm.refl _, List.Pairwise.nil⟩
  | cons x rest =>
    cases rest with
    | nil => exact ⟨List.Perm.refl _, List.pairwise_singleton _ _⟩
    | cons y rest2 =>
      rw [if_neg (by simp)]
      obtain ⟨S, hS, hperm, hsorted⟩ :=
        insertionSort_outer_spec (x :: y :: rest2).length [x] (y :: rest2)
      have hS2 : insertionSort.outer (x :: y :: rest2).length (x :: y :: rest2) 1 = S := hS
      rw [hS2]
      exact ⟨hperm, hsorted (List.pairwise_singleton _ _) (by simp)⟩

/-- A slice of one currency is determined by its amounts. -/
theorem map_amount_currency (c : Currency) (l : List Money)
    (h : ∀ m ∈ l, m.currency = c) :
    (l.map Money.amount).map (fun a => (⟨a, c⟩ : Money)) = l := by
  induction l with
  | nil => rfl
  | cons x xs ih =>
    have hx := h x (List.mem_cons_self _ _)
    rw [List.map_cons, List.map_cons, ih (fun m hm => h m (List.mem_cons_of_mem _ hm))]
    congr 1
    cases x
    simp only [Money.mk.injEq, true_and]
    exact hx.symm

/-- On a slice of one currency, every permutation with non-decreasing amounts
is the list left by the model of `sort.Sort`. -/
theorem sortSort_unique (c : Currency) (ms l : MoneySlice) (h : ∀ m ∈ ms, m.currency = c)
    (hperm : l.Perm ms) (hsorted : l.Pairwise (fun a b => a.amount ≤ b.amount)) :
    l = sortSort ms := by
  obtain ⟨hp, hs⟩ := sortSort_spec ms
  have hl : ∀ m ∈ l, m.currency = c := fun m hm => h m (hperm.mem_iff.mp hm)
  have hss : ∀ m ∈ sortSort ms, m.currency = c := fun m hm => h m (hp.mem_iff.mp hm)
  have hmap : l.map Money.amount = (sortSort ms).map Money.amount := by
    have h1 : List.Sorted (fun a b : Int => a ≤ b) (l.map Money.amount) :=
      List.pairwise_map.mpr hsorted
    have h2 : List.Sorted (fun a b : Int => a ≤ b) ((sortSort ms).map Money.amount) :=
      List.pairwise_map.mpr hs
    exact List.eq_of_perm_of_sorted ((hperm.trans hp.symm).map Money.amount) h1 h2
  rw [← map_amount_currency c l hl, hmap, map_amount_currency c _ hss]

/-- On every `int64` amount other than MinInt64 formatBrazilianAmount returns,
with at most one nested call, an `int64` multiple of five within 2 of the
amount, which is not MinInt64. -/
theorem formatBrazilianAmount_spec (fuel : Nat) (x : Int) (hx : inInt64 x)
    (hne : x ≠ MinInt64) :
    ∃ r, formatBrazilianAmount (fuel + 2) x = some r ∧ 5 ∣ r ∧ |r - x| ≤ 2 ∧
      inInt64 r ∧ r ≠ MinInt64 := by
  unfold inInt64 MinInt64 MaxInt64 at hx
  unfold MinInt64 at hne
  by_cases h0 : 0 ≤ x
  · refine ⟨_, formatBrazilianAmount_of_nonneg (fuel + 1) x h0 ?_, by omega, ?_, ?_, ?_⟩
    · unfold inInt64 MinInt64 MaxInt64
      omega
    · rw [abs_le]
      omega
    · unfold inInt64 MinInt64 MaxInt64
      omega
    · unfold MinInt64
      omega
  · refine ⟨_, formatBrazilianAmount_of_neg fuel x (by omega) ?_, by omega, ?_, ?_, ?_⟩
    · unfold MinInt64
      omega
    · rw [abs_le]
      omega
    · unfold inInt64 MinInt64 MaxInt64
      omega
    · unfold MinInt64
      omega

/-- The units printed by FormatWithOptions are the magnitude of the amount
divided by the power of ten. -/
theorem format_units (a pow : Int) (hpow : 0 < pow) (ha : inInt64 a) (hne : a ≠ MinInt64) :
    (if a < 0 then wrap64 (-(Int.tdiv a pow)) else Int.tdiv a pow) = |a| / pow := by
  unfold inInt64 MinInt64 MaxInt64 at ha
  unfold MinInt64 at hne
  by_cases h : a < 0
  · have hn : (0 : Int) ≤ -a := by omega
    have hq : Int.tdiv a pow = -((-a) / pow) := by
      calc Int.tdiv a pow = Int.tdiv (-(-a)) pow := by rw [Int.neg_neg]
        _ = -(Int.tdiv (-a) pow) := Int.neg_tdiv (-a) pow
        _ = -((-a) / pow) := by rw [Int.tdiv_eq_ediv hn (Int.le_of_lt hpow)]
    have h1 : 0 ≤ (-a) / pow := Int.ediv_nonneg hn (Int.le_of_lt hpow)
    have h2 : (-a) / pow ≤ -a := Int.ediv_le_self pow hn
    rw [if_pos h, hq, abs_of_neg h]
    unfold wrap64
    omega
  · rw [if_neg h, abs_of_nonneg (by omega), Int.tdiv_eq_ediv (by omega) (Int.le_of_lt hpow)]

/-- The decimals printed by FormatWithOptions are the magnitude of the amount
modulo the power of ten. -/
theorem format_decimals (a pow : Int) (hpow : 0 < pow) (ha : inInt64 a)
    (hne : a ≠ MinInt64) :
    (if Int.tmod a pow < 0 then wrap64 (-(Int.tmod a pow)) else Int.tmod a pow) =
      |a| % pow := by
  unfold inInt64 MinInt64 MaxInt64 at ha
  unfold MinInt64 at hne
  by_cases h : a < 0
  · have hn : (0 : Int) ≤ -a := by omega
    have hq : Int.tdiv a pow = -((-a) / pow) := by
      calc Int.tdiv a pow = Int.tdiv (-(-a)) pow := by rw [Int.neg_neg]
        _ = -(Int.tdiv (-a) pow) := Int.neg_tdiv (-a) pow
        _ = -((-a) / pow) := by rw [Int.tdiv_eq_ediv hn (Int.le_of_lt hpow)]
    have ht : Int.tmod a pow = -((-a) % pow) := by
      rw [Int.tmod_def, hq, Int.emod_def]
      ring
    have h1 : 0 ≤ (-a) % pow := Int.emod_nonneg _ (by omega)
    have h2 : (-a) % pow ≤ -a := by
      have hmul : 0 ≤ pow * ((-a) / pow) :=
        Int.mul_nonneg (Int.le_of_lt hpow) (Int.ediv_nonneg hn (Int.le_of_lt hpow))
      rw [Int.emod_def]
      omega
    rw [ht, abs_of_neg h]
    by_cases hz : (-a) % pow = 0
    · rw [hz]
      rfl
    · rw [if_pos (by omega)]
      unfold wrap64
      omega
  · have h0 : 0 ≤ a := by omega
    rw [if_neg (not_lt.mpr (Int.tmod_nonneg _ h0)), abs_of_nonneg h0,
      Int.tmod_eq_emod h0 (Int.le_of_lt hpow)]

/-! ## Claims -/

/-- C1: for same-currency `int64` operands, `Add` returns the addition
OverflowError carrying both amounts exactly when the mathematical sum leaves
the signed 64-bit range; otherwise it returns a Money in the first operand's
currency whose amount is the exact sum, and the subtractions evaluated inside
the guard stay in the 64-bit range whenever they are evaluated. -/
theorem C1_add_overflow_iff (a b : Money) (ha : inInt64 a.amount) (hb : inInt64 b.amount)
    (hc : a.currency = b.currency) :
    (a.Add b = .error (.OverflowError "addition" a.amount b.amount) ↔
        ¬ inInt64 (a.amount + b.amount)) ∧
    (inInt64 (a.amount + b.amount) →
        a.Add b = .ok ⟨a.amount + b.amount, a.currency⟩) ∧
    (0 < b.amount → inInt64 (MaxInt64 - b.amount)) ∧
    (b.amount < 0 → inInt64 (MinInt64 - b.amount)) := by
  rw [Add_eq a b ha hb hc]
  refine ⟨?_, ?_, ?_, ?_⟩
  · by_cases h : inInt64 (a.amount + b.amount)
    · simp [h]
    · simp [h]
  · intro h
    rw [if_pos h]
  · unfold inInt64 MinInt64 MaxInt64 at *
    omega
  · unfold inInt64 MinInt64 MaxInt64 at *
    omega

/-- C1, instance: the largest amount plus one cent is reported as an overflow,
while 1000 + 2000 is the exact sum. -/
theorem C1_add_overflow_iff_witness :
    (inInt64 MaxInt64 ∧ inInt64 1 ∧ usd = usd) ∧
    Money.Add ⟨MaxInt64, usd⟩ ⟨1, usd⟩ = .error (.OverflowError "addition" MaxInt64 1) ∧
    Money.Add ⟨1000, usd⟩ ⟨2000, usd⟩ = .ok ⟨3000, usd⟩ :=
  ⟨⟨by decide, by decide, rfl⟩,
   (C1_add_overflow_iff ⟨MaxInt64, usd⟩ ⟨1, usd⟩ (by decide) (by decide) rfl).1.2 (by decide),
   (C1_add_overflow_iff ⟨1000, usd⟩ ⟨2000, usd⟩ (by decide) (by decide) rfl).2.1 (by decide)⟩

/-- C2: for same-currency `int64` operands, `Subtract` returns the subtraction
OverflowError exactly when the mathematical difference leaves the signed
64-bit range (a subtrahend equal to MinInt64 included); otherwise it returns a
Money in the first operand's currency whose amount is the exact difference. -/
theorem C2_subtract_overflow_iff (a b : Money) (ha : inInt64 a.amount)
    (hb : inInt64 b.amount) (hc : a.currency = b.currency) :
    (a.Subtract b = .error (.OverflowError "subtraction" a.amount b.amount) ↔
        ¬ inInt64 (a.amount - b.amount)) ∧
    (inInt64 (a.amount - b.amount) →
        a.Subtract b = .ok ⟨a.amount - b.amount, a.currency⟩) := by
  rw [Subtract_eq a b ha hb hc]
  refine ⟨?_, ?_⟩
  · by_cases h : inInt64 (a.amount - b.amount)
    · simp [h]
    · simp [h]
  · intro h
    rw [if_pos h]

/-- C2, instance: subtracting MinInt64 from 0 overflows, subtracting it from
-1 gives MaxInt64. -/
theorem C2_subtract_overflow_iff_witness :
    (inInt64 0 ∧ inInt64 (-1) ∧ inInt64 MinInt64 ∧ usd = usd) ∧
    Money.Subtract ⟨0, usd⟩ ⟨MinInt64, usd⟩ =
      .error (.OverflowError "subtraction" 0 MinInt64) ∧
    Money.Subtract ⟨-1, usd⟩ ⟨MinInt64, usd⟩ = .ok ⟨MaxInt64, usd⟩ :=
  ⟨⟨by decide, by decide, by decide, rfl⟩,
   (C2_subtract_overflow_iff ⟨0, usd⟩ ⟨MinInt64, usd⟩ (by decide) (by decide) rfl).1.2
     (by decide),
   (C2_subtract_overflow_iff ⟨-1, usd⟩ ⟨MinInt64, usd⟩ (by decide) (by decide) rfl).2
     (by decide)⟩

/-- C3: when the two currencies differ, each of Add, Subtract, Equals,
GreaterThan and LessThan returns the CurrencyMismatchError naming the
receiver's code and then the argument's code, with no Money and the boolean
false, whatever the two amounts are (overflowing sums and differences
included). -/
theorem C3_currency_mismatch (m other : Money) (h : m.currency ≠ other.currency) :
    m.Add other = .error (.CurrencyMismatchError m.currency.Code other.currency.Code) ∧
    m.Subtract other =
      .error (.CurrencyMismatchError m.currency.Code other.currency.Code) ∧
    m.Equals other =
      (false, some (.CurrencyMismatchError m.currency.Code other.currency.Code)) ∧
    m.GreaterThan other =
      (false, some (.CurrencyMismatchError m.currency.Code other.currency.Code)) ∧
    m.LessThan other =
      (false, some (.CurrencyMismatchError m.currency.Code other.currency.Code)) := by
  unfold Money.Add Money.Subtract Money.Equals Money.GreaterThan Money.LessThan
  simp only [if_pos h, and_self]

/-- C3, instance: MaxInt64 USD against MaxInt64 EUR, whose sum would overflow,
is a currency mismatch for all five operations. -/
theorem C3_currency_mismatch_witness :
    usd ≠ eur ∧
    Money.Add ⟨MaxInt64, usd⟩ ⟨MaxInt64, eur⟩ =
      .error (.CurrencyMismatchError "USD" "EUR") ∧
    Money.Subtract ⟨MaxInt64, usd⟩ ⟨MaxInt64, eur⟩ =
      .error (.CurrencyMismatchError "USD" "EUR") ∧
    Money.Equals ⟨MaxInt64, usd⟩ ⟨MaxInt64, eur⟩ =
      (false, some (.CurrencyMismatchError "USD" "EUR")) ∧
    Money.GreaterThan ⟨MaxInt64, usd⟩ ⟨MaxInt64, eur⟩ =
      (false, some (.CurrencyMismatchError "USD" "EUR")) ∧
    Money.LessThan ⟨MaxInt64, usd⟩ ⟨MaxInt64, eur⟩ =
      (false, some (.CurrencyMismatchError "USD" "EUR")) :=
  ⟨by decide, C3_currency_mismatch ⟨MaxInt64, usd⟩ ⟨MaxInt64, eur⟩ (by decide)⟩

/-- C4: for every amount and every code that is a key of CurrencyMap, New
succeeds and returns a Money holding the amount unchanged and the registry
entry of the code as its currency. -/
theorem C4_new_roundtrip (amount : Int) (code : String) (cur : Currency)
    (h : CurrencyMap.lookup code = some cur) :
    New amount code = .ok ⟨amount, cur⟩ ∧
    (∀ m, New amount code = .ok m → m.amount = amount ∧ m.currency = cur) := by
  have hnew : New amount code = .ok ⟨amount, cur⟩ := by
    unfold New
    rw [GetCurrency_of_lookup h]
  refine ⟨hnew, ?_⟩
  intro m hm
  rw [hnew] at hm
  cases hm
  exact ⟨rfl, rfl⟩

/-- C4, instance: New(1099, "USD") holds 1099 and the USD entry. -/
theorem C4_new_roundtrip_witness :
    CurrencyMap.lookup "USD" = some usd ∧ New 1099 "USD" = .ok ⟨1099, usd⟩ :=
  ⟨by decide, (C4_new_roundtrip 1099 "USD" usd (by decide)).1⟩

/-- C5, as stated, fails at the empty code: it is not a key of CurrencyMap,
yet GetCurrency and New report a ValidationError for the field
"currency code", not a GetCurrencyError. -/
theorem C5_empty_code_counterexample :
    CurrencyMap.lookup "" = none ∧
    GetCurrency "" =
      .error (.ValidationError "currency code" "currency code cannot be empty") ∧
    GetCurrency "" ≠ .error (.GetCurrencyError "") ∧
    New 1000 "" =
      .error (.ValidationError "currency code" "currency code cannot be empty") ∧
    New 1000 "" ≠ .error (.GetCurrencyError "") := by
  refine ⟨by decide, rfl, ?_, rfl, ?_⟩
  · intro h
    have h2 : GetCurrency "" =
        .error (.ValidationError "currency code" "currency code cannot be empty") := rfl
    rw [h2] at h
    cases h
  · intro h
    have h2 : New 1000 "" =
        .error (.ValidationError "currency code" "currency code cannot be empty") := rfl
    rw [h2] at h
    cases h

/-- C5, amended: for every non-empty string that is not a key of CurrencyMap,
GetCurrency and New (with any amount) fail with the GetCurrencyError carrying
that string; for the empty string both fail with the ValidationError of the
field "currency code". -/
theorem C5_unknown_code (code : String) (amount : Int) :
    (code ≠ "" → CurrencyMap.lookup code = none →
      GetCurrency code = .error (.GetCurrencyError code) ∧
      New amount code = .error (.GetCurrencyError code)) ∧
    (GetCurrency "" =
        .error (.ValidationError "currency code" "currency code cannot be empty") ∧
      New amount "" =
        .error (.ValidationError "currency code" "currency code cannot be empty")) := by
  refine ⟨?_, ?_, ?_⟩
  · intro hne h
    have hg := GetCurrency_of_not_key hne h
    refine ⟨hg, ?_⟩
    unfold New
    rw [hg]
  · rfl
  · rfl

/-- C5, instance: the code "INVALID" of the example program is reported as not
found. -/
theorem C5_unknown_code_witness :
    ("INVALID" ≠ "" ∧ CurrencyMap.lookup "INVALID" = none) ∧
    GetCurrency "INVALID" = .error (.GetCurrencyError "INVALID") ∧
    New 1000 "INVALID" = .error (.GetCurrencyError "INVALID") :=
  ⟨⟨by decide, by decide⟩, (C5_unknown_code "INVALID" 1000).1 (by decide) (by decide)⟩

/-- C6: for same-currency `int64` operands, when Add succeeds with a result s,
subtracting the second operand from s succeeds as well and its result equals
the first operand: Equals returns true and no error. -/
theorem C6_add_then_subtract (a b s : Money) (ha : inInt64 a.amount)
    (hb : inInt64 b.amount) (hc : a.currency = b.currency) (h : a.Add b = .ok s) :
    ∃ r, s.Subtract b = .ok r ∧ r.Equals a = (true, none) := by
  obtain ⟨hr, hs⟩ := Add_ok_inv a b s ha hb hc h
  subst hs
  have hback : a.amount + b.amount - b.amount = a.amount := by omega
  have hsub := Subtract_eq ⟨a.amount + b.amount, a.currency⟩ b hr hb hc
  simp only [hback] at hsub
  rw [if_pos ha] at hsub
  refine ⟨⟨a.amount, a.currency⟩, hsub, ?_⟩
  unfold Money.Equals
  simp

/-- C6, instance: (MaxInt64 - 500) + 500 succeeds, and taking the 500 away
again gives back the first operand. -/
theorem C6_add_then_subtract_witness :
    (inInt64 (MaxInt64 - 500) ∧ inInt64 500 ∧ usd = usd ∧
      Money.Add ⟨MaxInt64 - 500, usd⟩ ⟨500, usd⟩ = .ok ⟨MaxInt64, usd⟩) ∧
    ∃ r, Money.Subtract ⟨MaxInt64, usd⟩ ⟨500, usd⟩ = .ok r ∧
      r.Equals ⟨MaxInt64 - 500, usd⟩ = (true, none) :=
  ⟨⟨by decide, by decide, rfl, by rfl⟩,
   C6_add_then_subtract ⟨MaxInt64 - 500, usd⟩ ⟨500, usd⟩ ⟨MaxInt64, usd⟩
     (by decide) (by decide) rfl (by rfl)⟩

/-- C7: Add is associative where no step overflows: for same-currency `int64`
operands a, b, c, when a+b, (a+b)+c, b+c and a+(b+c) all succeed, the two
final results have the same amount and the same currency. -/
theorem C7_add_assoc (a b c ab bc l r : Money) (ha : inInt64 a.amount)
    (hb : inInt64 b.amount) (hcc : inInt64 c.amount) (hab : a.currency = b.currency)
    (hbc : b.currency = c.currency) (h1 : a.Add b = .ok ab) (h2 : ab.Add c = .ok l)
    (h3 : b.Add c = .ok bc) (h4 : a.Add bc = .ok r) :
    l.amount = r.amount ∧ l.currency = r.currency := by
  obtain ⟨r1, e1⟩ := Add_ok_inv a b ab ha hb hab h1
  subst e1
  obtain ⟨r3, e3⟩ := Add_ok_inv b c bc hb hcc hbc h3
  subst e3
  obtain ⟨_, e2⟩ :=
    Add_ok_inv ⟨a.amount + b.amount, a.currency⟩ c l r1 hcc (hab.trans hbc) h2
  obtain ⟨_, e4⟩ :=
    Add_ok_inv a ⟨b.amount + c.amount, b.currency⟩ r ha r3 hab h4
  subst e2
  subst e4
  exact ⟨Int.add_assoc _ _ _, rfl⟩

/-- C7, instance: (1000 + 2000) + (-500) and 1000 + (2000 + (-500)) are both
2500 USD. -/
theorem C7_add_assoc_witness :
    (inInt64 1000 ∧ inInt64 2000 ∧ inInt64 (-500) ∧
      Money.Add ⟨1000, usd⟩ ⟨2000, usd⟩ = .ok ⟨3000, usd⟩ ∧
      Money.Add ⟨3000, usd⟩ ⟨-500, usd⟩ = .ok ⟨2500, usd⟩ ∧
      Money.Add ⟨2000, usd⟩ ⟨-500, usd⟩ = .ok ⟨1500, usd⟩ ∧
      Money.Add ⟨1000, usd⟩ ⟨1500, usd⟩ = .ok ⟨2500, usd⟩) ∧
    (2500 : Int) = 2500 ∧ usd = usd :=
  ⟨⟨by decide, by decide, by decide, by rfl, by rfl, by rfl, by rfl⟩,
   C7_add_assoc ⟨1000, usd⟩ ⟨2000, usd⟩ ⟨-500, usd⟩ ⟨3000, usd⟩ ⟨1500, usd⟩
     ⟨2500, usd⟩ ⟨2500, usd⟩ (by decide) (by decide) (by decide) rfl rfl
     (by rfl) (by rfl) (by rfl) (by rfl)⟩

/-- C8: for every non-negative `int64` value v, round with RoundHalfUp is the
truncated tenth when the last digit is 0..4 and the truncated tenth plus one
when it is 5..9, that is floor((v+5)/10); round(125) = 13 and
round(124) = 12. -/
theorem C8_round_half_up (v : Int) (h0 : 0 ≤ v) (hv : inInt64 v) :
    (0 ≤ Int.tmod v 10 ∧ Int.tmod v 10 ≤ 9) ∧
    (Int.tmod v 10 ≤ 4 → round v RoundHalfUp = Int.tdiv v 10) ∧
    (5 ≤ Int.tmod v 10 → round v RoundHalfUp = Int.tdiv v 10 + 1) ∧
    round v RoundHalfUp = (v + 5) / 10 ∧
    round 125 RoundHalfUp = 13 ∧ round 124 RoundHalfUp = 12 := by
  rw [round_RoundHalfUp, tdiv_ten_of_nonneg h0, tmod_ten_of_nonneg h0,
    wrap64_tenth_succ h0 hv]
  refine ⟨by omega, ?_, ?_, ?_, by decide, by decide⟩
  · intro h
    rw [if_neg (by omega)]
  · intro h
    rw [if_pos (by omega)]
  · split <;> omega

/-- C8, instance: 9223372036854775805, ending in 5, rounds up to
922337203685477581. -/
theorem C8_round_half_up_witness :
    ((0 : Int) ≤ 9223372036854775805 ∧ inInt64 9223372036854775805) ∧
    round 9223372036854775805 RoundHalfUp = (9223372036854775805 + 5) / 10 :=
  ⟨⟨by decide, by decide⟩,
   (C8_round_half_up 9223372036854775805 (by decide) (by decide)).2.2.2.1⟩

/-- C9: for every non-negative `int64` value v, round with RoundHalfEven is an
integer nearest to v/10: ten times the result is within 5 of v and no integer
is closer; on an exact tie (last digit 5) the result is even;
round(125) = 12 and round(135) = 14. -/
theorem C9_round_half_even (v : Int) (h0 : 0 ≤ v) (hv : inInt64 v) :
    |10 * round v RoundHalfEven - v| ≤ 5 ∧
    (∀ k : Int, |10 * round v RoundHalfEven - v| ≤ |10 * k - v|) ∧
    (Int.tmod v 10 = 5 → 2 ∣ round v RoundHalfEven) ∧
    round 125 RoundHalfEven = 12 ∧ round 135 RoundHalfEven = 14 := by
  have hq : 0 ≤ v / 10 := by omega
  rw [round_RoundHalfEven, tdiv_ten_of_nonneg h0, tmod_ten_of_nonneg h0,
    wrap64_tenth_succ h0 hv, Int.tmod_eq_emod hq (by decide)]
  refine ⟨?_, ?_, ?_, by decide, by decide⟩
  · rw [abs_le]
    split <;> omega
  · intro k
    rcases abs_cases (10 * k - v) with ⟨hk, _⟩ | ⟨hk, _⟩ <;> rw [hk] <;>
      split <;> rw [abs_le] <;> omega
  · intro h5
    split <;> omega

/-- C9, instance: the ties 125 and 135 go to the even neighbours 12 and 14. -/
theorem C9_round_half_even_witness :
    ((0 : Int) ≤ 135 ∧ inInt64 135) ∧
    (Int.tmod 135 10 = 5 → 2 ∣ round 135 RoundHalfEven) :=
  ⟨⟨by decide, by decide⟩, (C9_round_half_even 135 (by decide) (by decide)).2.2.1⟩

/-- C10: evaluation of RoundUp at the negative values -21 and -5, both with a
nonzero remainder.  Rounding away from zero asks for -3 and -1; the code
returns the truncated quotient plus one, that is -1 (toward zero, magnitude
1 where the truncated magnitude plus one is 3, and 10 * 1 is not above 21)
and +1 (the sign of the value is lost). -/
theorem C10_round_up_negative :
    Int.tmod (-21) 10 = -1 ∧ Int.tdiv (-21) 10 = -2 ∧
    round (-21) RoundUp = -1 ∧
    |round (-21) RoundUp| ≠ |Int.tdiv (-21) 10| + 1 ∧
    ¬ (10 * |round (-21) RoundUp| > |(-21 : Int)|) ∧
    Int.tmod (-5) 10 = -5 ∧ round (-5) RoundUp = 1 := by
  have h21 : round (-21) RoundUp = -1 := by decide
  have hd : Int.tdiv (-21) 10 = -2 := by decide
  rw [h21, hd]
  refine ⟨by decide, rfl, rfl, ?_, ?_, by decide, by decide⟩
  · norm_num
  · norm_num

/-- C11: evaluation of round with BrazilianRounding at the documented inputs.
The documentation asks for 120, 120, 125, 125, 125, 125, 130 at 121, 122,
123, 124, 126, 127, 128; the code returns 102 for the first four and 105 for
the last three, and 102 is not a multiple of 5.  Read with the extra digit of
the function header (1.21 passed as 1210), the result is 1202, not 120. -/
theorem C11_round_brazilian_documented :
    round 121 BrazilianRounding = 102 ∧ round 122 BrazilianRounding = 102 ∧
    round 123 BrazilianRounding = 102 ∧ round 124 BrazilianRounding = 102 ∧
    round 126 BrazilianRounding = 105 ∧ round 127 BrazilianRounding = 105 ∧
    round 128 BrazilianRounding = 105 ∧
    ¬ (5 : Int) ∣ round 121 BrazilianRounding ∧
    round 1210 BrazilianRounding = 1202 := by
  decide

/-- C12: for every non-negative `int64` amount a with last two digits c,
formatBrazilianAmount returns (without a nested call) the whole part a - c
plus the band value: 5k whenever 5k-2 ≤ c ≤ 5k+2, which for k = 20 is the
carry of 100 at c = 98, 99.  The result is 5 * ((a+2)/5), a multiple of 5,
within 2 of a and in the `int64` range; 121, 122 give 120, 123 to 127 give
125, 128 gives 130 and 198 gives 200. -/
theorem C12_formatBrazilianAmount_bands (fuel : Nat) (a : Int) (h0 : 0 ≤ a)
    (ha : inInt64 a) :
    ∃ r, formatBrazilianAmount (fuel + 1) a = some r ∧
      (∀ k : Int, 5 * k - 2 ≤ Int.tmod a 100 → Int.tmod a 100 ≤ 5 * k + 2 →
        r = (a - Int.tmod a 100) + 5 * k) ∧
      r = 5 * ((a + 2) / 5) ∧ 5 ∣ r ∧ |r - a| ≤ 2 ∧ inInt64 r ∧
      formatBrazilianAmount 1 121 = some 120 ∧ formatBrazilianAmount 1 122 = some 120 ∧
      formatBrazilianAmount 1 123 = some 125 ∧ formatBrazilianAmount 1 124 = some 125 ∧
      formatBrazilianAmount 1 126 = some 125 ∧ formatBrazilianAmount 1 127 = some 125 ∧
      formatBrazilianAmount 1 128 = some 130 ∧ formatBrazilianAmount 1 198 = some 200 := by
  refine ⟨5 * ((a + 2) / 5), formatBrazilianAmount_of_nonneg fuel a h0 ha, ?_, rfl, ?_, ?_, ?_,
    by decide, by decide, by decide, by decide, by decide, by decide, by decide, by decide⟩
  · intro k h1 h2
    rw [tmod_hundred_of_nonneg h0] at h1 h2 ⊢
    omega
  · omega
  · rw [abs_le]
    omega
  · unfold inInt64 MinInt64 MaxInt64 at *
    omega

/-- C12, instance: the largest `int64` amount, ending in 07, is rounded down
to the multiple of five ending in 05. -/
theorem C12_formatBrazilianAmount_bands_witness :
    ((0 : Int) ≤ MaxInt64 ∧ inInt64 MaxInt64) ∧
    ∃ r, formatBrazilianAmount 1 MaxInt64 = some r ∧
      (∀ k : Int, 5 * k - 2 ≤ Int.tmod MaxInt64 100 → Int.tmod MaxInt64 100 ≤ 5 * k + 2 →
        r = (MaxInt64 - Int.tmod MaxInt64 100) + 5 * k) ∧
      r = 5 * ((MaxInt64 + 2) / 5) ∧ 5 ∣ r ∧ |r - MaxInt64| ≤ 2 ∧ inInt64 r ∧
      formatBrazilianAmount 1 121 = some 120 ∧ formatBrazilianAmount 1 122 = some 120 ∧
      formatBrazilianAmount 1 123 = some 125 ∧ formatBrazilianAmount 1 124 = some 125 ∧
      formatBrazilianAmount 1 126 = some 125 ∧ formatBrazilianAmount 1 127 = some 125 ∧
      formatBrazilianAmount 1 128 = some 130 ∧ formatBrazilianAmount 1 198 = some 200 :=
  ⟨⟨by decide, by decide⟩,
   C12_formatBrazilianAmount_bands 0 MaxInt64 (by decide) (by decide)⟩

/-- C15: Sum fails with the ValidationError of the field "slice" on the
empty slice; on a non-empty slice whose elements all have the first element's
currency and `int64` amounts, and whose prefix sums (from 0) all fit in
`int64`, it returns a Money in that currency whose amount is the exact sum of
the amounts; the payments 1000, 2000, -500, 1500 USD sum to 4000 USD. -/
theorem C15_sum (first : Money) (rest : List Money)
    (hcur : ∀ m ∈ first :: rest, m.currency = first.currency)
    (hamt : ∀ m ∈ first :: rest, inInt64 m.amount)
    (hpre : ∀ n, inInt64 ((((first :: rest).take n).map Money.amount).sum)) :
    Sum [] = .error (.ValidationError "slice" "empty slice provided") ∧
    Sum (first :: rest) =
      .ok ⟨((first :: rest).map Money.amount).sum, first.currency⟩ ∧
    Sum payments = .ok ⟨4000, usd⟩ := by
  refine ⟨rfl, ?_, by rfl⟩
  have hv : ValidateMoneySlice (first :: rest) = none := by
    rw [ValidateMoneySlice_cons, ValidateMoneySlice_loop_none_iff]
    intro m hm
    exact hcur m (List.mem_cons_of_mem first hm)
  have hzero : inInt64 (Money.mk 0 first.currency).amount :=
    show inInt64 0 by decide
  have hloop := Sum_loop_ok (first :: rest) ⟨0, first.currency⟩ hzero
    (fun m hm => ⟨hcur m hm, hamt m hm⟩)
    (fun n => by simpa using hpre n)
  unfold Sum
  simp only [hv]
  rw [hloop]
  simp

/-- C15, instance: 5 USD and MaxInt64 - 5 USD sum to MaxInt64 USD. -/
theorem C15_sum_witness :
    Sum [⟨5, usd⟩, ⟨MaxInt64 - 5, usd⟩] = .ok ⟨MaxInt64, usd⟩ :=
  (C15_sum ⟨5, usd⟩ [⟨MaxInt64 - 5, usd⟩] (by decide) (by decide)
    (by
      intro n
      rcases n with _ | _ | n
      · decide
      · decide
      · simp only [List.take_succ_cons, List.take_nil]
        decide)).2.1

/-- C17: ValidateMoneySlice returns nil on the empty slice, and on a slice
with first element `first` it returns nil exactly when every element has the
currency of `first` (so always for a single element); otherwise it returns
the CurrencyMismatchError whose first code is that of `first` and whose
second code is that of the earliest element with a different currency. -/
theorem C17_validate_money_slice (first : Money) (rest : List Money) :
    ValidateMoneySlice [] = none ∧ ValidateMoneySlice [first] = none ∧
    (ValidateMoneySlice (first :: rest) = none ↔
      ∀ m ∈ first :: rest, m.currency = first.currency) ∧
    ((¬ ∀ m ∈ first :: rest, m.currency = first.currency) →
      ∃ (i : Nat) (m : Money), rest[i]? = some m ∧ m.currency ≠ first.currency ∧
        (∀ (j : Nat) (n : Money), j < i → rest[j]? = some n →
          n.currency = first.currency) ∧
        ValidateMoneySlice (first :: rest) =
          some (.CurrencyMismatchError first.currency.Code m.currency.Code)) := by
  refine ⟨rfl, rfl, ?_, ?_⟩
  · rw [ValidateMoneySlice_cons, ValidateMoneySlice_loop_none_iff]
    simp
  · intro h
    rw [ValidateMoneySlice_cons]
    apply ValidateMoneySlice_loop_earliest
    by_contra hno
    apply h
    intro m hm
    rcases List.mem_cons.mp hm with he | hmem
    · rw [he]
    · by_contra hne
      exact hno ⟨m, hmem, hne⟩

/-- C17, instance: in USD, USD, EUR, BRL the earliest element that differs
from the first is the EUR one. -/
theorem C17_validate_money_slice_witness :
    (¬ ∀ m ∈ [(⟨1, usd⟩ : Money), ⟨2, usd⟩, ⟨3, eur⟩, ⟨4, brl⟩], m.currency = usd) ∧
    ValidateMoneySlice [⟨1, usd⟩, ⟨2, usd⟩, ⟨3, eur⟩, ⟨4, brl⟩] =
      some (.CurrencyMismatchError "USD" "EUR") ∧
    ∃ (i : Nat) (m : Money),
      [(⟨2, usd⟩ : Money), ⟨3, eur⟩, ⟨4, brl⟩][i]? = some m ∧ m.currency ≠ usd ∧
        (∀ (j : Nat) (n : Money), j < i →
          [(⟨2, usd⟩ : Money), ⟨3, eur⟩, ⟨4, brl⟩][j]? = some n → n.currency = usd) ∧
        ValidateMoneySlice [⟨1, usd⟩, ⟨2, usd⟩, ⟨3, eur⟩, ⟨4, brl⟩] =
          some (.CurrencyMismatchError "USD" m.currency.Code) :=
  ⟨by decide, by decide,
   (C17_validate_money_slice ⟨1, usd⟩ [⟨2, usd⟩, ⟨3, eur⟩, ⟨4, brl⟩]).2.2.2 (by decide)⟩

/-- C18: Map returns the ValidationError of the field "transform" exactly
when some element of the slice changes currency under the transform;
otherwise it returns the slice of the transformed elements, of the same
length and with the transform of the i-th element at index i; the empty
slice maps to the empty slice. -/
theorem C18_map (slice : MoneySlice) (transform : Money → Money) :
    (Map slice transform =
        .error (.ValidationError "transform"
          "transformation must maintain the same currency") ↔
      ∃ (i : Nat) (m : Money), slice[i]? = some m ∧ (transform m).currency ≠ m.currency) ∧
    ((¬ ∃ (i : Nat) (m : Money),
        slice[i]? = some m ∧ (transform m).currency ≠ m.currency) →
      ∃ result, Map slice transform = .ok result ∧ result.length = slice.length ∧
        ∀ (i : Nat) (m : Money), slice[i]? = some m → result[i]? = some (transform m)) ∧
    Map [] transform = .ok [] := by
  have hidx : (∃ (i : Nat) (m : Money),
      slice[i]? = some m ∧ (transform m).currency ≠ m.currency) ↔
      ∃ m ∈ slice, (transform m).currency ≠ m.currency := by
    constructor
    · rintro ⟨i, m, hi, hne⟩
      exact ⟨m, List.getElem?_mem hi, hne⟩
    · rintro ⟨m, hm, hne⟩
      obtain ⟨i, hi⟩ := List.getElem?_of_mem hm
      exact ⟨i, m, hi, hne⟩
  have hok : (¬ ∃ m ∈ slice, (transform m).currency ≠ m.currency) →
      Map slice transform = .ok (slice.map transform) := by
    intro h
    rw [Map_eq_loop, Map_loop_ok transform slice []]
    · simp
    · intro m hm
      by_contra hne
      exact h ⟨m, hm, hne⟩
  rw [hidx]
  refine ⟨?_, ?_, rfl⟩
  · constructor
    · intro h
      by_contra hno
      rw [hok hno] at h
      cases h
    · intro h
      rw [Map_eq_loop]
      exact Map_loop_error transform slice [] h
  · intro h
    refine ⟨slice.map transform, hok h, by simp, ?_⟩
    intro i m hi
    rw [List.getElem?_map, hi]
    rfl

/-- C18, instance: turning every element of a USD slice into EUR gives
results that share one currency among themselves, and Map rejects it. -/
theorem C18_map_witness :
    (∃ (i : Nat) (m : Money), [(⟨1, usd⟩ : Money), ⟨2, usd⟩][i]? = some m ∧
      (Money.mk m.amount eur).currency ≠ m.currency) ∧
    Map [⟨1, usd⟩, ⟨2, usd⟩] (fun m => ⟨m.amount, eur⟩) =
      .error (.ValidationError "transform"
        "transformation must maintain the same currency") :=
  ⟨⟨0, ⟨1, usd⟩, rfl, by decide⟩,
   (C18_map [⟨1, usd⟩, ⟨2, usd⟩] (fun m => ⟨m.amount, eur⟩)).1.mpr
     ⟨0, ⟨1, usd⟩, rfl, by decide⟩⟩

/-- C13: evaluation of Multiply with the default RoundHalfUp at 399 USD times
3, where every `float64` product is exact: the scaled value is 11970, round
returns 1197 and the further division by ten leaves 119, not 1197; likewise
Multiply by 1 turns 399 into 39. -/
theorem C13_multiply_whole_factor :
    exactFactor 3 1 399 = 11970 ∧ round 11970 RoundHalfUp = 1197 ∧
    Money.Multiply ⟨399, usd⟩ (exactFactor 3 1) RoundHalfUp = ⟨119, usd⟩ ∧
    Money.Multiply ⟨399, usd⟩ (exactFactor 1 1) RoundHalfUp = ⟨39, usd⟩ := by
  decide

/-- C14: evaluation of NewFromFloat with the default RoundHalfUp at 100.00
USD, 20.50 EUR and 10000 JPY, where every `float64` product is exact: the
scaled values are 100000, 20500 and 100000, round returns 10000, 2050 and
10000, and the further division by ten leaves 1000, 205 and 1000. -/
theorem C14_new_from_float :
    exactAmount 100 1 2 = 100000 ∧ exactAmount 41 2 2 = 20500 ∧
    exactAmount 10000 1 0 = 100000 ∧
    round 100000 RoundHalfUp = 10000 ∧ round 20500 RoundHalfUp = 2050 ∧
    NewFromFloat (exactAmount 100 1) "USD" RoundHalfUp = .ok ⟨1000, usd⟩ ∧
    NewFromFloat (exactAmount 41 2) "EUR" RoundHalfUp = .ok ⟨205, eur⟩ ∧
    NewFromFloat (exactAmount 10000 1) "JPY" RoundHalfUp = .ok ⟨1000, jpy⟩ := by
  refine ⟨by decide, by decide, by decide, by decide, by decide, by rfl, by rfl, by rfl⟩

/-- C16: evaluation of Average with the default RoundHalfUp at the payments
1000, 2000, -500, 1500 USD, whose sum 4000 is divisible by 4 and where every
`float64` operation is exact: the scaled value is 10000, round returns 1000
and the further division by ten leaves 100, not 1000. -/
theorem C16_average_payments :
    Sum payments = .ok ⟨4000, usd⟩ ∧ exactFactor 1 4 4000 = 10000 ∧
    round 10000 RoundHalfUp = 1000 ∧
    Average payments (fun n => exactFactor 1 n) RoundHalfUp = .ok ⟨100, usd⟩ := by
  refine ⟨by rfl, by decide, by decide, by rfl⟩

/-- C20: for every Money and every rate whose scaled product is an `int64`
value, ConvertTo with target "BRL" returns (within two nested calls of
formatBrazilianAmount) a Money with the BRL entry as currency whose amount is
formatBrazilianAmount of round(scaled, default)/10, a multiple of 5 for every
default method; a target that is a key of the registry with another code
receives round(scaled, default)/10 itself. -/
theorem C20_convert_to_brl (fuel : Nat) (m : Money) (rate : FloatFactor)
    (method : RoundingMethod) (h : inInt64 (rate m.amount)) :
    ∃ r, formatBrazilianAmount (fuel + 2) (Int.tdiv (round (rate m.amount) method) 10) =
        some r ∧
      m.ConvertTo (fuel + 2) "BRL" rate method = some (.ok ⟨r, brl⟩) ∧ 5 ∣ r ∧
      ∀ (code : String) (cur : Currency), CurrencyMap.lookup code = some cur →
        cur.Code ≠ "BRL" →
        m.ConvertTo (fuel + 2) code rate method =
          some (.ok ⟨Int.tdiv (round (rate m.amount) method) 10, cur⟩) := by
  obtain ⟨r, hr, h5⟩ := formatBrazilianAmount_of_tenth fuel
    (Int.tdiv (round (rate m.amount) method) 10)
    (tdiv_ten_bound (round_inInt64 _ method h))
  refine ⟨r, hr, ?_, h5, ?_⟩
  · unfold Money.ConvertTo
    rw [GetCurrency_BRL]
    simp only []
    rw [if_pos (by decide)]
    simp only [hr]
  · intro code cur hl hne
    unfold Money.ConvertTo
    rw [GetCurrency_of_lookup hl]
    simp only []
    rw [if_neg hne]

/-- C20, instance: 100.00 EUR at the rate 6, a scaled product of 600000,
becomes 6000 BRL. -/
theorem C20_convert_to_brl_witness :
    inInt64 (exactFactor 6 1 10000) ∧
    ∃ r, formatBrazilianAmount 2 (Int.tdiv (round (exactFactor 6 1 10000) RoundHalfUp) 10) =
        some r ∧
      Money.ConvertTo 2 ⟨10000, eur⟩ "BRL" (exactFactor 6 1) RoundHalfUp =
        some (.ok ⟨r, brl⟩) ∧ 5 ∣ r ∧
      ∀ (code : String) (cur : Currency), CurrencyMap.lookup code = some cur →
        cur.Code ≠ "BRL" →
        Money.ConvertTo 2 ⟨10000, eur⟩ code (exactFactor 6 1) RoundHalfUp =
          some (.ok ⟨Int.tdiv (round (exactFactor 6 1 10000) RoundHalfUp) 10, cur⟩) :=
  ⟨by decide, C20_convert_to_brl 0 ⟨10000, eur⟩ (exactFactor 6 1) RoundHalfUp (by decide)⟩

/-- C19, as stated, fails at its own example: Format on New(1099, "USD")
returns the symbol, a space and then the amount, "$ 10.99", which is not
"$10.99". -/
theorem C19_format_space_counterexample :
    New 1099 "USD" = .ok ⟨1099, usd⟩ ∧
    Money.Format 1 ⟨1099, usd⟩ = some "$ 10.99" ∧
    Money.Format 1 ⟨1099, usd⟩ ≠ some "$10.99" := by
  refine ⟨by rfl, by decide, by decide⟩

/-- C19, amended: Format puts one space between the symbol and the number.
For every Money with an `int64` amount other than MinInt64 in a currency of
precision 0 to 18, Format returns these parts in this order, where a is the
amount, for BRL first rounded to the nearest multiple of five: "-" when a is
negative; the symbol and a space when the symbol position is "before"; the
units |a| / 10^precision, grouped by the group separator when that is not
empty; the decimal separator and |a| % 10^precision padded with zeros to the
precision, when the precision is positive; a space and the symbol when the
symbol position is "after".  New(1099, "USD").Format() is "$ 10.99". -/
theorem C19_format_default (fuel : Nat) (m : Money) (hm : inInt64 m.amount)
    (hne : m.amount ≠ MinInt64)
    (hp : 0 ≤ m.currency.Precision ∧ m.currency.Precision ≤ 18) :
    (∃ a : Int,
      (if m.currency.Code = "BRL" then formatBrazilianAmount (fuel + 2) m.amount
        else some m.amount) = some a ∧
      (m.currency.Code = "BRL" → 5 ∣ a ∧ |a - m.amount| ≤ 2) ∧
      m.Format (fuel + 2) = some (
        (if a < 0 then "-" else "") ++
        (if m.currency.SymbolPosition = "before" then m.currency.Symbol ++ " " else "") ++
        (if m.currency.GroupSeparator ≠ "" then
          addThousandsSeparator (sprintfD (|a| / 10 ^ m.currency.Precision.toNat))
            m.currency.GroupSeparator
        else sprintfD (|a| / 10 ^ m.currency.Precision.toNat)) ++
        (if 0 < m.currency.Precision then
          m.currency.DecimalSeparator ++
            sprintfZeroPadD m.currency.Precision (|a| % 10 ^ m.currency.Precision.toNat)
        else "") ++
        (if m.currency.SymbolPosition = "after" then " " ++ m.currency.Symbol else ""))) ∧
    Money.Format 1 ⟨1099, usd⟩ = some "$ 10.99" ∧
    Money.Format 1 ⟨123456705, usd⟩ = some "$ 1,234,567.05" ∧
    Money.Format 1 ⟨-50, usd⟩ = some "-$ 0.50" ∧
    Money.Format 1 ⟨1000, ars⟩ = some "$ 1.000" ∧
    Money.Format 1 ⟨123450, sek⟩ = some "1 234,50 kr" ∧
    Money.Format 1 ⟨123, brl⟩ = some "R$ 1,25" ∧
    sprintfD 1234567 = "1234567" ∧
    addThousandsSeparator "1234567" "," = "1,234,567" ∧
    addThousandsSeparator "123456" "," = "123,456" ∧
    sprintfZeroPadD 2 5 = "05" := by
  refine ⟨?_, by decide, by decide, by decide, by decide, by decide, by decide, by decide,
    by decide, by decide, by decide⟩
  have hscrut : ∃ a : Int,
      (if m.currency.Code = "BRL" then formatBrazilianAmount (fuel + 2) m.amount
        else some m.amount) = some a ∧
      (m.currency.Code = "BRL" → 5 ∣ a ∧ |a - m.amount| ≤ 2) ∧ inInt64 a ∧ a ≠ MinInt64 := by
    by_cases hbrl : m.currency.Code = "BRL"
    · obtain ⟨r, hr, h5, h2, hri, hrn⟩ := formatBrazilianAmount_spec fuel m.amount hm hne
      exact ⟨r, by rw [if_pos hbrl]; exact hr, fun _ => ⟨h5, h2⟩, hri, hrn⟩
    · exact ⟨m.amount, by rw [if_neg hbrl], fun h => absurd h hbrl, hm, hne⟩
  obtain ⟨a, ha, hbrl, hai, han⟩ := hscrut
  refine ⟨a, ha, hbrl, ?_⟩
  have hpow : (0 : Int) < 10 ^ m.currency.Precision.toNat := by positivity
  have hu := format_units a (10 ^ m.currency.Precision.toNat) hpow hai han
  have hd := format_decimals a (10 ^ m.currency.Precision.toNat) hpow hai han
  unfold Money.Format Money.FormatWithOptions
  rw [ha]
  simp only [pow10Int64, if_pos hp, decide_eq_true_eq, hu, hd, if_true, true_and,
    gt_iff_lt]
  by_cases hneg : a < 0 <;> by_cases hgs : m.currency.GroupSeparator = "" <;>
    by_cases hpp : 0 < m.currency.Precision <;>
    by_cases hb : m.currency.SymbolPosition = "before" <;>
    by_cases haf : m.currency.SymbolPosition = "after" <;>
    simp [hneg, hgs, hpp, hb, haf, String.append_assoc]

/-- C19, instance: 1099 USD is rendered as "$ 10.99". -/
theorem C19_format_default_witness :
    (inInt64 1099 ∧ (1099 : Int) ≠ MinInt64 ∧ 0 ≤ usd.Precision ∧ usd.Precision ≤ 18) ∧
    ∃ a : Int,
      (if usd.Code = "BRL" then formatBrazilianAmount 2 1099 else some 1099) = some a ∧
      (usd.Code = "BRL" → 5 ∣ a ∧ |a - 1099| ≤ 2) ∧
      Money.Format 2 ⟨1099, usd⟩ = some (
        (if a < 0 then "-" else "") ++
        (if usd.SymbolPosition = "before" then usd.Symbol ++ " " else "") ++
        (if usd.GroupSeparator ≠ "" then
          addThousandsSeparator (sprintfD (|a| / 10 ^ usd.Precision.toNat)) usd.GroupSeparator
        else sprintfD (|a| / 10 ^ usd.Precision.toNat)) ++
        (if 0 < usd.Precision then
          usd.DecimalSeparator ++ sprintfZeroPadD usd.Precision (|a| % 10 ^ usd.Precision.toNat)
        else "") ++
        (if usd.SymbolPosition = "after" then " " ++ usd.Symbol else "")) :=
  ⟨by decide,
   (C19_format_default 0 ⟨1099, usd⟩ (by decide) (by decide) (by decide)).1⟩

/-- C21: without a converter ConvertViaReference returns the ValidationError
of the field "converter" and makes no rate lookup; with a converter whose
lookup from the source to the reference currency fails, it returns an error
whose message names these two codes after that single lookup; when only the
lookup from the reference to the target currency fails, it returns an error
whose message names those two codes.  A failure carries no Money. -/
theorem C21_convert_via_reference (fuel : Nat) (m : Money) (target reference : String)
    (date : Option Int) (converter : CurrencyConverter) (method : RoundingMethod) :
    m.ConvertViaReference fuel target reference date none method =
      ([], some (.error (.ValidationError "converter" "no currency converter configured"))) ∧
    (∀ err : String, converter m.currency.Code reference date = .error err →
      m.ConvertViaReference fuel target reference date (some converter) method =
        ([(m.currency.Code, reference)],
          some (.error (.ValidationError "exchange_rate"
            ("could not fetch rate from " ++ m.currency.Code ++ " to " ++ reference ++
              ": " ++ err))))) ∧
    (∀ (rate : FloatFactor) (err : String),
      converter m.currency.Code reference date = .ok rate →
      converter reference target date = .error err →
      m.ConvertViaReference fuel target reference date (some converter) method =
        ([(m.currency.Code, reference), (reference, target)],
          some (.error (.ValidationError "exchange_rate"
            ("could not fetch rate from " ++ reference ++ " to " ++ target ++
              ": " ++ err))))) := by
  refine ⟨rfl, ?_, ?_⟩
  · intro err h1
    unfold Money.ConvertViaReference
    simp only [h1]
  · intro rate err h1 h2
    unfold Money.ConvertViaReference
    simp only [h1, h2]

/-- C21, instance: from EUR through GBP the first lookup fails and is the
only one made; from EUR through USD to JPY the second lookup fails. -/
theorem C21_convert_via_reference_witness :
    Money.ConvertViaReference 2 ⟨10000, eur⟩ "BRL" "GBP" none (some exampleConverter)
        RoundHalfUp =
      ([("EUR", "GBP")],
        some (.error (.ValidationError "exchange_rate"
          "could not fetch rate from EUR to GBP: rate not found for EUR to GBP"))) ∧
    Money.ConvertViaReference 2 ⟨10000, eur⟩ "JPY" "USD" none (some exampleConverter)
        RoundHalfUp =
      ([("EUR", "USD"), ("USD", "JPY")],
        some (.error (.ValidationError "exchange_rate"
          "could not fetch rate from USD to JPY: rate not found for USD to JPY"))) :=
  ⟨(C21_convert_via_reference 2 ⟨10000, eur⟩ "BRL" "GBP" none exampleConverter
      RoundHalfUp).2.1 "rate not found for EUR to GBP" (by rfl),
   (C21_convert_via_reference 2 ⟨10000, eur⟩ "JPY" "USD" none exampleConverter
      RoundHalfUp).2.2 (exactFactor 2 1) "rate not found for USD to JPY" (by rfl) (by rfl)⟩

/-- C22: evaluation of Abs at the amount MinInt64, which New accepts: the
negation wraps around, so the returned amount is MinInt64 itself, negative
and different from the absolute value 2^63. -/
theorem C22_abs_min_int64 :
    inInt64 MinInt64 ∧ New MinInt64 "USD" = .ok ⟨MinInt64, usd⟩ ∧
    Money.Abs ⟨MinInt64, usd⟩ = ⟨MinInt64, usd⟩ ∧
    (Money.Abs ⟨MinInt64, usd⟩).amount < 0 ∧
    (Money.Abs ⟨MinInt64, usd⟩).amount ≠ 9223372036854775808 := by
  refine ⟨by decide, by rfl, by decide, by decide, by decide⟩

/-- C26: for every negative value, round with RoundHalfUp, RoundHalfDown,
RoundHalfEven and RoundDown returns the quotient by ten truncated toward
zero: the half rules never fire.  So -125 and -129 give -12 under RoundHalfUp
where 125 and 129 give 13. -/
theorem C26_round_negative_truncates (v : Int) (hneg : v < 0) :
    round v RoundHalfUp = Int.tdiv v 10 ∧ round v RoundHalfDown = Int.tdiv v 10 ∧
    round v RoundHalfEven = Int.tdiv v 10 ∧ round v RoundDown = Int.tdiv v 10 ∧
    round (-125) RoundHalfUp = -12 ∧ round (-129) RoundHalfUp = -12 ∧
    round 125 RoundHalfUp = 13 ∧ round 129 RoundHalfUp = 13 := by
  have hm : Int.tmod v 10 ≤ 0 := by
    rw [tmod_ten_of_neg hneg]
    omega
  refine ⟨?_, ?_, ?_, rfl, by decide, by decide, by decide, by decide⟩
  · rw [round_RoundHalfUp, if_neg (by omega)]
  · rw [round_RoundHalfDown, if_neg (by omega)]
  · rw [round_RoundHalfEven, if_neg (by omega)]

/-- C26, instance: MinInt64 is truncated to -922337203685477580 by the four
modes. -/
theorem C26_round_negative_truncates_witness :
    MinInt64 < 0 ∧ round MinInt64 RoundHalfUp = Int.tdiv MinInt64 10 ∧
    round MinInt64 RoundHalfEven = Int.tdiv MinInt64 10 :=
  ⟨by decide, (C26_round_negative_truncates MinInt64 (by decide)).1,
   (C26_round_negative_truncates MinInt64 (by decide)).2.2.1⟩

/-- C27: evaluation of formatBrazilianAmount and Format at the amount
MinInt64: the negation wraps around to MinInt64, so the function calls itself
on the same negative amount again and, whatever depth of nested calls is
allowed, neither it nor Format on MinInt64 BRL returns. -/
theorem C27_format_brazilian_min_int64 (fuel : Nat) :
    inInt64 MinInt64 ∧ wrap64 (-MinInt64) = MinInt64 ∧
    formatBrazilianAmount fuel MinInt64 = none ∧
    Money.Format fuel ⟨MinInt64, brl⟩ = none ∧
    Money.FormatWithOptions fuel ⟨MinInt64, brl⟩ ⟨false, false, "", "", ""⟩ = none := by
  refine ⟨by decide, wrap64_neg_MinInt64, formatBrazilianAmount_MinInt64 fuel, ?_, ?_⟩
  · unfold Money.Format Money.FormatWithOptions
    rw [if_pos (by decide)]
    simp only [formatBrazilianAmount_MinInt64]
  · unfold Money.FormatWithOptions
    rw [if_pos (by decide)]
    simp only [formatBrazilianAmount_MinInt64]

/-- C23, as stated, fails: New accepts MaxInt64, which ValidateAmount rejects,
and the sum of the in-band amounts 92233720368547758 and 1 is returned by Add
although ValidateAmount rejects it. -/
theorem C23_band_counterexample :
    New MaxInt64 "USD" = .ok ⟨MaxInt64, usd⟩ ∧ ValidateAmount MaxInt64 ≠ none ∧
    ValidateAmount 92233720368547758 = none ∧ ValidateAmount 1 = none ∧
    Money.Add ⟨92233720368547758, usd⟩ ⟨1, usd⟩ = .ok ⟨92233720368547759, usd⟩ ∧
    ValidateAmount 92233720368547759 ≠ none := by
  refine ⟨by rfl, by decide, by decide, by decide, by rfl, by decide⟩

/-- C23, amended: ValidateAmount returns nil exactly when the magnitude of the
amount is at most MaxInt64/100.  The band is not enforced: New returns every
amount unchanged for a key of the registry, and Add and Subtract on
same-currency operands inside the band always succeed with the exact sum and
difference, whose magnitude is at most twice MaxInt64/100. -/
theorem C23_band (x : Int) (code : String) (cur : Currency) (a b : Money)
    (hl : CurrencyMap.lookup code = some cur) (hc : a.currency = b.currency)
    (ha : ValidateAmount a.amount = none) (hb : ValidateAmount b.amount = none) :
    (ValidateAmount x = none ↔ |x| ≤ Int.tdiv MaxInt64 100) ∧
    New x code = .ok ⟨x, cur⟩ ∧
    a.Add b = .ok ⟨a.amount + b.amount, a.currency⟩ ∧
    |a.amount + b.amount| ≤ 2 * Int.tdiv MaxInt64 100 ∧
    a.Subtract b = .ok ⟨a.amount - b.amount, a.currency⟩ ∧
    |a.amount - b.amount| ≤ 2 * Int.tdiv MaxInt64 100 := by
  have h2 : Int.tdiv MaxInt64 100 = 92233720368547758 := by decide
  rw [ValidateAmount_none_iff] at ha hb
  have hia : inInt64 a.amount := by
    unfold inInt64 MinInt64 MaxInt64
    omega
  have hib : inInt64 b.amount := by
    unfold inInt64 MinInt64 MaxInt64
    omega
  have hs : inInt64 (a.amount + b.amount) := by
    unfold inInt64 MinInt64 MaxInt64
    omega
  have hd : inInt64 (a.amount - b.amount) := by
    unfold inInt64 MinInt64 MaxInt64
    omega
  rw [ValidateAmount_none_iff, h2, abs_le, abs_le, abs_le, Add_eq a b hia hib hc,
    Subtract_eq a b hia hib hc, if_pos hs, if_pos hd]
  refine ⟨Iff.rfl, ?_, rfl, by omega, rfl, by omega⟩
  unfold New
  rw [GetCurrency_of_lookup hl]

/-- C23, instance: the two band limits are accepted by ValidateAmount and
their difference, twice the limit, is returned by Subtract. -/
theorem C23_band_witness :
    (CurrencyMap.lookup "USD" = some usd ∧ ValidateAmount 92233720368547758 = none ∧
      ValidateAmount (-92233720368547758) = none) ∧
    Money.Subtract ⟨92233720368547758, usd⟩ ⟨-92233720368547758, usd⟩ =
      .ok ⟨92233720368547758 - -92233720368547758, usd⟩ :=
  ⟨⟨by decide, by decide, by decide⟩,
   (C23_band 0 "USD" usd ⟨92233720368547758, usd⟩ ⟨-92233720368547758, usd⟩
     (by decide) rfl (by decide) (by decide)).2.2.2.2.1⟩

/-- C24, as stated, fails: 121 BRL plus 1 BRL is 122 BRL, not the 120 that
formatBrazilianAmount gives for 122, and 122 is not a multiple of 5; likewise
125 BRL minus 2 BRL is 123 BRL, not 125. -/
theorem C24_brl_arithmetic_counterexample :
    Money.Add ⟨121, brl⟩ ⟨1, brl⟩ = .ok ⟨122, brl⟩ ∧
    formatBrazilianAmount 2 (121 + 1) = some 120 ∧ ¬ (5 : Int) ∣ 122 ∧
    Money.Subtract ⟨125, brl⟩ ⟨2, brl⟩ = .ok ⟨123, brl⟩ ∧
    formatBrazilianAmount 2 (125 - 2) = some 125 ∧ ¬ (5 : Int) ∣ 123 := by
  refine ⟨by rfl, by decide, by decide, by rfl, by decide, by decide⟩

/-- C24, amended: Add and Subtract do not apply the nearest-five-cents pass.
For all BRL Money values a and b with `int64` amounts, whenever Add succeeds
the returned Money is BRL with amount exactly a.amount + b.amount, and it
succeeds whenever that sum is in the `int64` range; whenever Subtract
succeeds the returned Money is BRL with amount exactly a.amount - b.amount,
and it succeeds whenever that difference is in the `int64` range.  The pass
is applied when a BRL amount is formatted: New(123, "BRL").Format() is
"R$ 1,25". -/
theorem C24_brl_arithmetic (a b : Money) (ha : inInt64 a.amount) (hb : inInt64 b.amount)
    (hca : a.currency = brl) (hcb : b.currency = brl) :
    (∀ s : Money, a.Add b = .ok s → s = ⟨a.amount + b.amount, brl⟩) ∧
    (inInt64 (a.amount + b.amount) → a.Add b = .ok ⟨a.amount + b.amount, brl⟩) ∧
    (∀ d : Money, a.Subtract b = .ok d → d = ⟨a.amount - b.amount, brl⟩) ∧
    (inInt64 (a.amount - b.amount) → a.Subtract b = .ok ⟨a.amount - b.amount, brl⟩) ∧
    New 123 "BRL" = .ok ⟨123, brl⟩ ∧ Money.Format 2 ⟨123, brl⟩ = some "R$ 1,25" := by
  have hc : a.currency = b.currency := hca.trans hcb.symm
  refine ⟨?_, ?_, ?_, ?_, by rfl, by decide⟩
  · intro s hadd
    obtain ⟨_, hs⟩ := Add_ok_inv a b s ha hb hc hadd
    rw [hca] at hs
    exact hs
  · intro hr
    rw [Add_eq a b ha hb hc, if_pos hr, hca]
  · intro d hsub
    obtain ⟨_, hd⟩ := Subtract_ok_inv a b d ha hb hc hsub
    rw [hca] at hd
    exact hd
  · intro hr
    rw [Subtract_eq a b ha hb hc, if_pos hr, hca]

/-- C24, instance: MaxInt64 BRL plus -1 BRL succeeds with the exact sum, which
ends in 06, although the difference of the two would overflow; 121 BRL minus
-1 BRL is 122 BRL. -/
theorem C24_brl_arithmetic_witness :
    (inInt64 MaxInt64 ∧ inInt64 (-1) ∧ inInt64 (MaxInt64 + -1) ∧ inInt64 121 ∧
      inInt64 (121 - -1)) ∧
    Money.Add ⟨MaxInt64, brl⟩ ⟨-1, brl⟩ = .ok ⟨MaxInt64 + -1, brl⟩ ∧
    Money.Subtract ⟨121, brl⟩ ⟨-1, brl⟩ = .ok ⟨121 - -1, brl⟩ :=
  ⟨by decide,
   (C24_brl_arithmetic ⟨MaxInt64, brl⟩ ⟨-1, brl⟩ (by decide) (by decide) rfl rfl).2.1
     (by decide),
   (C24_brl_arithmetic ⟨121, brl⟩ ⟨-1, brl⟩ (by decide) (by decide) rfl rfl).2.2.2.1
     (by decide)⟩

/-- C28: every key of CurrencyMap maps to a Currency whose Code is the key,
so for Money values created by New from the codes c1 and c2, the currencies
are equal exactly when the codes are, and each of Add, Subtract, Equals,
GreaterThan and LessThan returns a CurrencyMismatchError exactly when c1 and
c2 differ. -/
theorem C28_registry_codes (x y : Int) (c1 c2 : String) (m1 m2 : Money)
    (h1 : New x c1 = .ok m1) (h2 : New y c2 = .ok m2) :
    (∀ (k : String) (cur : Currency), CurrencyMap.lookup k = some cur → cur.Code = k) ∧
    (m1.currency = m2.currency ↔ c1 = c2) ∧
    ((∃ e1 e2, m1.Add m2 = .error (.CurrencyMismatchError e1 e2)) ↔ c1 ≠ c2) ∧
    ((∃ e1 e2, m1.Subtract m2 = .error (.CurrencyMismatchError e1 e2)) ↔ c1 ≠ c2) ∧
    ((∃ e1 e2, (m1.Equals m2).2 = some (.CurrencyMismatchError e1 e2)) ↔ c1 ≠ c2) ∧
    ((∃ e1 e2, (m1.GreaterThan m2).2 = some (.CurrencyMismatchError e1 e2)) ↔ c1 ≠ c2) ∧
    ((∃ e1 e2, (m1.LessThan m2).2 = some (.CurrencyMismatchError e1 e2)) ↔ c1 ≠ c2) := by
  obtain ⟨cur1, hl1, hm1⟩ := New_ok_inv x c1 m1 h1
  obtain ⟨cur2, hl2, hm2⟩ := New_ok_inv y c2 m2 h2
  have hcur : m1.currency = m2.currency ↔ c1 = c2 := by
    subst hm1
    subst hm2
    constructor
    · intro h
      have hk1 := CurrencyMap_code c1 cur1 hl1
      have hk2 := CurrencyMap_code c2 cur2 hl2
      have h3 : cur1 = cur2 := h
      rw [← hk1, ← hk2, h3]
    · intro h
      rw [h, hl2] at hl1
      cases hl1
      rfl
  have hne : m1.currency ≠ m2.currency ↔ c1 ≠ c2 := not_congr hcur
  refine ⟨CurrencyMap_code, hcur, ?_, ?_, ?_, ?_, ?_⟩
  · rw [← hne]
    constructor
    · rintro ⟨e1, e2, h⟩ hc
      exact Add_not_mismatch m1 m2 hc e1 e2 h
    · intro h
      exact ⟨_, _, (by unfold Money.Add; rw [if_pos h])⟩
  · rw [← hne]
    constructor
    · rintro ⟨e1, e2, h⟩ hc
      exact Subtract_not_mismatch m1 m2 hc e1 e2 h
    · intro h
      exact ⟨_, _, (by unfold Money.Subtract; rw [if_pos h])⟩
  · rw [← hne]
    constructor
    · rintro ⟨e1, e2, h⟩ hc
      unfold Money.Equals at h
      rw [if_neg (not_not.mpr hc)] at h
      cases h
    · intro h
      exact ⟨_, _, (by unfold Money.Equals; rw [if_pos h])⟩
  · rw [← hne]
    constructor
    · rintro ⟨e1, e2, h⟩ hc
      unfold Money.GreaterThan at h
      rw [if_neg (not_not.mpr hc)] at h
      cases h
    · intro h
      exact ⟨_, _, (by unfold Money.GreaterThan; rw [if_pos h])⟩
  · rw [← hne]
    constructor
    · rintro ⟨e1, e2, h⟩ hc
      unfold Money.LessThan at h
      rw [if_neg (not_not.mpr hc)] at h
      cases h
    · intro h
      exact ⟨_, _, (by unfold Money.LessThan; rw [if_pos h])⟩

/-- C28, instance: Money created from "USD" and from "EUR" cannot be added,
because the codes differ. -/
theorem C28_registry_codes_witness :
    (New 1000 "USD" = .ok ⟨1000, usd⟩ ∧ New 1000 "EUR" = .ok ⟨1000, eur⟩) ∧
    ((∃ e1 e2, Money.Add ⟨1000, usd⟩ ⟨1000, eur⟩ = .error (.CurrencyMismatchError e1 e2)) ↔
      "USD" ≠ "EUR") :=
  ⟨⟨by rfl, by rfl⟩,
   (C28_registry_codes 1000 1000 "USD" "EUR" ⟨1000, usd⟩ ⟨1000, eur⟩ (by rfl)
     (by rfl)).2.2.1⟩

/-- C25: on a slice whose elements share one currency SortMoneySlice returns
nil and leaves a permutation of the original elements with non-decreasing
amounts, and every permutation of the slice with non-decreasing amounts is
that list; on a slice whose elements do not share one currency it returns a
CurrencyMismatchError and leaves the slice as it was. -/
theorem C25_sort_money_slice (slice : MoneySlice) :
    ((∀ a ∈ slice, ∀ b ∈ slice, a.currency = b.currency) →
      (SortMoneySlice slice).2 = none ∧
      (SortMoneySlice slice).1.Perm slice ∧
      (SortMoneySlice slice).1.Pairwise (fun a b => a.amount ≤ b.amount) ∧
      ∀ l : MoneySlice, l.Perm slice → l.Pairwise (fun a b => a.amount ≤ b.amount) →
        l = (SortMoneySlice slice).1) ∧
    ((¬ ∀ a ∈ slice, ∀ b ∈ slice, a.currency = b.currency) →
      (∃ c1 c2, (SortMoneySlice slice).2 = some (.CurrencyMismatchError c1 c2)) ∧
      (SortMoneySlice slice).1 = slice) := by
  constructor
  · intro h
    have hv := (ValidateMoneySlice_none_iff slice).mpr h
    unfold SortMoneySlice
    simp only [hv]
    refine ⟨trivial, (sortSort_spec slice).1, (sortSort_spec slice).2, ?_⟩
    intro l hperm hsorted
    cases slice with
    | nil =>
      rw [List.perm_nil.mp hperm]
      rfl
    | cons first rest =>
      exact sortSort_unique first.currency (first :: rest) l
        (fun m hm => h m hm first (List.mem_cons_self _ _)) hperm hsorted
  · intro h
    have hv : ValidateMoneySlice slice ≠ none := fun hn =>
      h ((ValidateMoneySlice_none_iff slice).mp hn)
    rcases ValidateMoneySlice_cases slice with hn | ⟨c1, c2, hc⟩
    · exact absurd hn hv
    · unfold SortMoneySlice
      simp only [hc]
      exact ⟨⟨c1, c2, rfl⟩, trivial⟩

/-- C25, instance: the example payments are left in the order -500, 1000,
1500, 2000 with no error, and a slice of USD and EUR is left as it was. -/
theorem C25_sort_money_slice_witness :
    ((∀ a ∈ payments, ∀ b ∈ payments, a.currency = b.currency) ∧
      ¬ ∀ a ∈ [(⟨3, usd⟩ : Money), ⟨1, eur⟩], ∀ b ∈ [(⟨3, usd⟩ : Money), ⟨1, eur⟩],
        a.currency = b.currency) ∧
    SortMoneySlice payments =
      ([⟨-500, usd⟩, ⟨1000, usd⟩, ⟨1500, usd⟩, ⟨2000, usd⟩], none) ∧
    SortMoneySlice [⟨3, usd⟩, ⟨1, eur⟩] =
      ([⟨3, usd⟩, ⟨1, eur⟩], some (.CurrencyMismatchError "USD" "EUR")) ∧
    (SortMoneySlice payments).1.Perm payments ∧
    (SortMoneySlice [⟨3, usd⟩, ⟨1, eur⟩]).1 = [⟨3, usd⟩, ⟨1, eur⟩] :=
  ⟨⟨by decide, by decide⟩, by decide, by decide,
   ((C25_sort_money_slice payments).1 (by decide)).2.1,
   ((C25_sort_money_slice [⟨3, usd⟩, ⟨1, eur⟩]).2 (by decide)).2⟩

end money
